/-
Verification of the digitsrecog neural-network core.

The Rust source is embedded shallowly: f64 scalars become exact rationals
(so all statements hold up to floating-point rounding, matching the specs
phrase "up to floating-point summation-order differences"), and tanh is an
abstract parameter `th : ℚ → ℚ` since no claim depends on its values.
Vec<T> becomes List, mutation becomes state passing, and the fork/join in
backpropagate_multithreaded is sequentialized in join order (workers own
disjoint clones, so the joined result is deterministic).  Code paths that
panic in Rust (division by zero, unwrap) are modelled with Option, and
out-of-bounds unchecked accesses (unreachable under the shape invariants)
are totalized with default values.
-/
import Mathlib

set_option linter.unusedVariables false

/-- Activation function family, from src/neural_net/layer/transfer.rs. -/
inductive TransferFunction where
  | Nothing
  | Relu
  | LeakyRelu
  | Tanh
  | Sigmoid
  | Sigmoid2
deriving DecidableEq, Repr

/-- TransferFunction::t_f.  `th` models f64::tanh. -/
def TransferFunction.t_f (th : ℚ → ℚ) : TransferFunction → ℚ → ℚ
  | .Nothing, n => n
  | .Relu, n => max n 0
  | .LeakyRelu, n => max n (1/100)
  | .Tanh, n => th n
  | .Sigmoid, n => 1/2 + 1/2 * th (n * (1/2))
  | .Sigmoid2, n => (17159/10000) * th ((66666666/100000000) * n)

/-- TransferFunction::dt_f. -/
def TransferFunction.dt_f (th : ℚ → ℚ) : TransferFunction → ℚ → ℚ
  | .Nothing, _ => 1
  | .Relu, n => if 0 < n then 1 else 0
  | .LeakyRelu, n => if 0 < n then 1 else 1/100
  | .Tanh, n => 1 - (th n)^2
  | .Sigmoid, n => 1/4 - 1/4 * (th (n * (1/2)))^2
  | .Sigmoid2, n => (11427894/10000000) - (11427894/10000000) * (th ((66666666/100000000) * n))^2

/-- fn new_sign (src/neural_net/layer.rs): 0 if the number is 0, else its sign. -/
def new_sign (num : ℚ) : Int :=
  if num = 0 then 0 else if 0 < num then 1 else -1

/-- enum InnerOuter: error source for a backward step. -/
inductive InnerOuter where
  | Outputs : List ℚ → InnerOuter
  | Inners : List ℚ → List (List ℚ) → InnerOuter

/-- struct DefaultLayerSettings. -/
structure DefaultLayerSettings where
  size : ℕ
  transfer_function : TransferFunction
deriving DecidableEq, Repr

/-- struct DefaultLayer.  All five collections keep the Rust field names. -/
structure DefaultLayer where
  neurons : List ℚ
  learning_rates : List (List ℚ)
  previous_signs : List (List Int)
  gradient_batch : List (List ℚ)
  weights : List (List ℚ)
  transfer_function : TransferFunction
deriving DecidableEq, Repr

/-- DefaultLayer::new.  `rng` models the uniform [0,1) draws of thread_rng,
indexed by (neuron, weight-column); a weight is `rng * 2 - 1`. -/
def DefaultLayer.new (rng : ℕ → ℕ → ℚ) (size previous_size : ℕ)
    (transfer_function : TransferFunction) : DefaultLayer :=
  let weights := (List.range size).map (fun i =>
    (List.range (previous_size + 1)).map (fun j => rng i j * 2 - 1))
  { neurons := List.replicate size 0
    weights := weights
    gradient_batch := weights.map (fun wc => List.replicate wc.length 0)
    learning_rates := weights.map (fun wc => List.replicate wc.length (1/10))
    previous_signs := weights.map (fun wc => wc.map new_sign)
    transfer_function := transfer_function }

/-- DefaultLayer::reset_temporary. -/
def DefaultLayer.reset_temporary (l : DefaultLayer) : DefaultLayer :=
  { l with
    neurons := List.replicate l.weights.length 0
    gradient_batch := l.weights.map (fun wc => List.replicate wc.length 0) }

/-- The per-neuron sum of DefaultLayer::feedforward: zip of the previous
activations with this neurons weight row, plus the bias (last weight). -/
def feedNeurons (th : ℚ → ℚ) (ptf : TransferFunction) (prev : List ℚ) :
    List ℚ → List (List ℚ) → List ℚ
  | ns, [] => ns
  | [], _ :: _ => []
  | _ :: ns, row :: rows =>
    ((List.zipWith (fun p w => ptf.t_f th p * w) prev row).sum + row.getLastD 0)
      :: feedNeurons th ptf prev ns rows

/-- DefaultLayer::feedforward. -/
def DefaultLayer.feedforward (th : ℚ → ℚ) (l : DefaultLayer) (previous_neurons : List ℚ)
    (transfer_function : TransferFunction) : DefaultLayer :=
  { l with neurons := feedNeurons th transfer_function previous_neurons l.neurons l.weights }

/-- The error term of DefaultLayer::backpropagate for neuron `i` holding `n`. -/
def errorAt (th : ℚ → ℚ) (tf : TransferFunction) (errs : InnerOuter) (i : ℕ) (n : ℚ) : ℚ :=
  match errs with
  | .Outputs correct => tf.t_f th n - correct.getD i 0
  | .Inners nns nws => (List.zipWith (fun nn nw => nn * nw.getD i 0) nns nws).sum

/-- The local gradients that DefaultLayer::backpropagate writes back into the
neuron buffer, one per neuron, starting at index `i`. -/
def derivsFrom (th : ℚ → ℚ) (tf : TransferFunction) (errs : InnerOuter) :
    ℕ → List ℚ → List ℚ
  | _, [] => []
  | i, n :: ns => tf.dt_f th n * errorAt th tf errs i n :: derivsFrom th tf errs (i + 1) ns

/-- Phase one of the gradient-row update: add deriv * input over the zip of the
inputs with the row (surplus row entries are left alone). -/
def zipAdd : List ℚ → ℚ → List ℚ → List ℚ
  | [], _, row => row
  | _ :: _, _, [] => []
  | i :: is, d, g :: gs => (g + d * i) :: zipAdd is d gs

/-- Phase two: the bias gradient, `current_batch[len - 1] += deriv`. -/
def bumpLast : List ℚ → ℚ → List ℚ
  | [], _ => []
  | [g], d => [g + d]
  | g :: g2 :: gs, d => g :: bumpLast (g2 :: gs) d

/-- The whole gradient-row update of DefaultLayer::backpropagate. -/
def addGrads (inputs : List ℚ) (d : ℚ) (row : List ℚ) : List ℚ :=
  bumpLast (zipAdd inputs d row) d

/-- Gradient-matrix update: row `i` gets addGrads with the local gradient of
neuron `i`; rows past the neuron count are untouched. -/
def gbUpdate (inputs : List ℚ) : List ℚ → List (List ℚ) → List (List ℚ)
  | [], gb => gb
  | _ :: _, [] => []
  | d :: ds, row :: rows => addGrads inputs d row :: gbUpdate inputs ds rows

/-- DefaultLayer::backpropagate. -/
def DefaultLayer.backpropagate (th : ℚ → ℚ) (l : DefaultLayer) (inputs : List ℚ)
    (errors : InnerOuter) : DefaultLayer :=
  let ds := derivsFrom th l.transfer_function errors 0 l.neurons
  { l with neurons := ds, gradient_batch := gbUpdate inputs ds l.gradient_batch }

/-- Result of one RPROP update over a weight row. -/
structure RpropRow where
  g : List ℚ
  s : List Int
  r : List ℚ
  w : List ℚ
deriving DecidableEq, Repr

/-- Result of one RPROP update over a whole layer. -/
structure RpropMat where
  g : List (List ℚ)
  s : List (List Int)
  r : List (List ℚ)
  w : List (List ℚ)
deriving DecidableEq, Repr

/-- The per-weight body of DefaultLayer::apply_gradients, returning the new
(gradient, previous sign, learning rate, weight). -/
def rpropStep (g : ℚ) (s : Int) (r : ℚ) (w : ℚ) : ℚ × Int × ℚ × ℚ :=
  let current_sign := new_sign g
  let combination := current_sign * s
  if 0 < combination then
    let r2 := min (r * (12/10)) (1/100)
    (0, current_sign, r2, w - r2 * (current_sign : ℚ))
  else if combination < 0 then
    (0, 0, max (r * (1/2)) (1/1000000), w)
  else
    (0, current_sign, r, w - r * (current_sign : ℚ))

/-- The inner loop of apply_gradients, driven by the weight row; surplus
entries of the other three rows are untouched. -/
def rpropRow : List ℚ → List ℚ → List Int → List ℚ → RpropRow
  | [], g, s, r => ⟨g, s, r, []⟩
  | w :: ws, g, s, r =>
    let e := rpropStep (g.headD 0) (s.headD 0) (r.headD 0) w
    let rest := rpropRow ws g.tail s.tail r.tail
    ⟨e.1 :: rest.g, e.2.1 :: rest.s, e.2.2.1 :: rest.r, e.2.2.2 :: rest.w⟩

/-- The outer loop of apply_gradients, driven by the weight matrix. -/
def rpropMat : List (List ℚ) → List (List ℚ) → List (List Int) → List (List ℚ) → RpropMat
  | [], g, s, r => ⟨g, s, r, []⟩
  | wr :: wrs, g, s, r =>
    let e := rpropRow wr (g.headD []) (s.headD []) (r.headD [])
    let rest := rpropMat wrs g.tail s.tail r.tail
    ⟨e.g :: rest.g, e.s :: rest.s, e.r :: rest.r, e.w :: rest.w⟩

/-- DefaultLayer::apply_gradients. -/
def DefaultLayer.apply_gradients (l : DefaultLayer) : DefaultLayer :=
  let m := rpropMat l.weights l.gradient_batch l.previous_signs l.learning_rates
  { l with gradient_batch := m.g, previous_signs := m.s, learning_rates := m.r, weights := m.w }

/-- Elementwise gradient-row addition of DefaultLayer::combine, driven by the
length of the own row. -/
def addRow : List ℚ → List ℚ → List ℚ
  | [], _ => []
  | g :: gs, os => (g + os.headD 0) :: addRow gs os.tail

/-- Elementwise gradient-matrix addition of DefaultLayer::combine. -/
def addMat : List (List ℚ) → List (List ℚ) → List (List ℚ)
  | [], _ => []
  | r :: rs, os => addRow r (os.headD []) :: addMat rs os.tail

/-- DefaultLayer::combine: add the other layers batch gradient into this one. -/
def DefaultLayer.combine (l other : DefaultLayer) : DefaultLayer :=
  { l with gradient_batch := addMat l.gradient_batch other.gradient_batch }

/-- struct TrainSample. -/
structure TrainSample where
  inputs : List ℚ
  outputs : List ℚ
deriving DecidableEq, Repr

/-- struct NeuralNet. -/
structure NeuralNet where
  inputs_amount : ℕ
  layers : List DefaultLayer
deriving DecidableEq, Repr

/-- The layer chain of NeuralNet::create; `idx` numbers the layers so the rng
argument can model independent draws per layer. -/
def createLayers (rng : ℕ → ℕ → ℕ → ℚ) : ℕ → ℕ → List DefaultLayerSettings → List DefaultLayer
  | _, _, [] => []
  | idx, prev, s :: rest =>
    DefaultLayer.new (rng idx) s.size prev s.transfer_function
      :: createLayers rng (idx + 1) s.size rest

/-- NeuralNet::create (the empty-list assert is a fatal panic in Rust; the
claims under verification never touch it). -/
def NeuralNet.create (rng : ℕ → ℕ → ℕ → ℚ) (inputs_amount : ℕ)
    (layers : List DefaultLayerSettings) : NeuralNet :=
  { inputs_amount := inputs_amount, layers := createLayers rng 0 inputs_amount layers }

/-- The loop of NeuralNet::feedforward_inner: layer 0 is fed the raw inputs
with TransferFunction::Nothing, each later layer the previous stored neurons
with the previous transfer function. -/
def feedLayers (th : ℚ → ℚ) (prev : List ℚ) (ptf : TransferFunction) :
    List DefaultLayer → List DefaultLayer
  | [] => []
  | l :: rest =>
    let l2 := l.feedforward th prev ptf
    l2 :: feedLayers th l2.neurons l2.transfer_function rest

/-- NeuralNet::feedforward_inner. -/
def NeuralNet.feedforward_inner (th : ℚ → ℚ) (net : NeuralNet) (inputs : List ℚ) : NeuralNet :=
  { net with layers := feedLayers th inputs TransferFunction.Nothing net.layers }

/-- Stand-in for a layer when a Rust unwrap on an empty layer list would
panic; NeuralNet::create forbids empty networks. -/
def layerDefault : DefaultLayer :=
  ⟨[], [], [], [], [], TransferFunction.Nothing⟩

/-- NeuralNet::feedforward: run the inner pass, then return the last layers
stored values with its transfer function applied, together with the updated
network (the Rust method mutates self). -/
def NeuralNet.feedforward (th : ℚ → ℚ) (net : NeuralNet) (inputs : List ℚ) :
    List ℚ × NeuralNet :=
  let net2 := net.feedforward_inner th inputs
  let last := net2.layers.getLastD layerDefault
  (last.neurons.map (last.transfer_function.t_f th), net2)

/-- The reversed loop of NeuralNet::backpropagate_inner.  The last layer gets
InnerOuter::Outputs; every other layer gets the already-processed next layer
(whose neuron buffer then holds local gradients) as InnerOuter::Inners, and is
fed the transformed neurons of the still-unprocessed layer below it. -/
def backLayers (th : ℚ → ℚ) (outputs : List ℚ) (prevActs : List ℚ) :
    List DefaultLayer → List DefaultLayer
  | [] => []
  | [l] => [l.backpropagate th prevActs (InnerOuter.Outputs outputs)]
  | l :: next :: rest =>
    let done := backLayers th outputs (l.neurons.map (l.transfer_function.t_f th)) (next :: rest)
    let pn := done.headD next
    l.backpropagate th prevActs (InnerOuter.Inners pn.neurons pn.weights) :: done

/-- NeuralNet::backpropagate_inner. -/
def NeuralNet.backpropagate_inner (th : ℚ → ℚ) (net : NeuralNet)
    (inputs outputs : List ℚ) : NeuralNet :=
  { net with layers := backLayers th outputs inputs net.layers }

/-- NeuralNet::backpropagate_nonapply: per sample a forward pass then a
backward pass, gradients accumulating, no weight update. -/
def NeuralNet.backpropagate_nonapply (th : ℚ → ℚ) (net : NeuralNet)
    (samples : List TrainSample) : NeuralNet :=
  samples.foldl
    (fun n s => (n.feedforward_inner th s.inputs).backpropagate_inner th s.inputs s.outputs) net

/-- NeuralNet::apply_gradients. -/
def NeuralNet.apply_gradients (net : NeuralNet) : NeuralNet :=
  { net with layers := net.layers.map DefaultLayer.apply_gradients }

/-- The layer zip of NeuralNet::combine. -/
def combineLayers : List DefaultLayer → List DefaultLayer → List DefaultLayer
  | [], _ => []
  | ls, [] => ls
  | l :: ls, o :: os => l.combine o :: combineLayers ls os

/-- NeuralNet::combine. -/
def NeuralNet.combine (net other : NeuralNet) : NeuralNet :=
  { net with layers := combineLayers net.layers other.layers }

/-- NeuralNet::backpropagate. -/
def NeuralNet.backpropagate (th : ℚ → ℚ) (net : NeuralNet)
    (samples : List TrainSample) : NeuralNet :=
  (net.backpropagate_nonapply th samples).apply_gradients

/-- NeuralNet::backpropagate_multithreaded, sequentialized in join order.
The guard and chunking mirror the source: when samples.len() >= threads,
threads - 1 clones each take samples.len() / threads samples off the front
and only accumulate gradients, the calling thread takes the rest, the clone
accumulators are merged in spawn order, and apply_gradients runs once.  With
threads = 0 the guard still holds and samples.len() / threads is a division
by zero, which panics in Rust: modelled as none. -/
def NeuralNet.backpropagate_multithreaded (th : ℚ → ℚ) (net : NeuralNet)
    (samples : List TrainSample) (threads : ℕ) : Option NeuralNet :=
  if threads ≤ samples.length then
    if threads = 0 then none
    else
      let spt := samples.length / threads
      let workers := (List.range (threads - 1)).map (fun k =>
        net.backpropagate_nonapply th ((samples.drop (k * spt)).take spt))
      let main := net.backpropagate_nonapply th (samples.drop ((threads - 1) * spt))
      some (workers.foldl NeuralNet.combine main).apply_gradients
  else
    some (net.backpropagate_nonapply th samples).apply_gradients

/-- The per-layer field set that ciborium persists (serde skips the neuron
buffer and the gradient accumulator). -/
structure SavedLayer where
  learning_rates : List (List ℚ)
  previous_signs : List (List Int)
  weights : List (List ℚ)
  transfer_function : TransferFunction
deriving DecidableEq, Repr

/-- The persisted network: input size plus the per-layer fields. -/
structure SavedNet where
  inputs_amount : ℕ
  layers : List SavedLayer
deriving DecidableEq, Repr

/-- NeuralNet::save, at the field level the generic codec serializes. -/
def NeuralNet.save (net : NeuralNet) : SavedNet :=
  { inputs_amount := net.inputs_amount
    layers := net.layers.map (fun l =>
      ⟨l.learning_rates, l.previous_signs, l.weights, l.transfer_function⟩) }

/-- Deserialization of one layer: the skipped fields come back at their serde
defaults, the empty vector. -/
def SavedLayer.toLayer (s : SavedLayer) : DefaultLayer :=
  { neurons := []
    learning_rates := s.learning_rates
    previous_signs := s.previous_signs
    gradient_batch := []
    weights := s.weights
    transfer_function := s.transfer_function }

/-- NeuralNet::load on successfully decoded bytes: rebuild the layers, then
reset_temporary on each. -/
def NeuralNet.load (s : SavedNet) : NeuralNet :=
  { inputs_amount := s.inputs_amount
    layers := (s.layers.map SavedLayer.toLayer).map DefaultLayer.reset_temporary }

/-- recognize (src/lib.rs), the C inference entry point.  Null pointers are
Option none; `loadFile` models File::open plus the ciborium decode of the
model path (none on any failure); the image pointer is a byte source read at
offsets 0..28*28.  A failed load or a non-10 output arity hits an unwrap,
which panics: modelled as none. -/
def recognize (th : ℚ → ℚ) (loadFile : String → Option SavedNet)
    (network_path : Option String) (image : Option (ℕ → ℕ)) : Option (List ℚ) :=
  match network_path, image with
  | some path, some img =>
    match loadFile path with
    | none => none
    | some saved =>
      let network := NeuralNet.load saved
      let inputs := (List.range (28 * 28)).map (fun i => (img i : ℚ) / 255)
      let guesses := (network.feedforward th inputs).1
      if guesses.length = 10 then some guesses else none
  | _, _ => some (List.replicate 10 0)

/-- The row-length profile of a matrix; two matrices with equal matShape have
the same row count and the same length row by row. -/
def matShape (m : List (List α)) : List ℕ := m.map List.length

/-- The shape invariant of one layer against its previous size: one weight
row per neuron, previous size + 1 columns, and the three companion matrices
shaped exactly like the weights. -/
def layerShapeOK (prevSize : ℕ) (l : DefaultLayer) : Prop :=
  l.weights.length = l.neurons.length ∧
  (∀ row ∈ l.weights, row.length = prevSize + 1) ∧
  matShape l.learning_rates = matShape l.weights ∧
  matShape l.previous_signs = matShape l.weights ∧
  matShape l.gradient_batch = matShape l.weights

instance (prevSize : ℕ) (l : DefaultLayer) : Decidable (layerShapeOK prevSize l) := by
  unfold layerShapeOK
  infer_instance

/-- Entry (i, j) of the gradient accumulator, defaulting like the totalized
unchecked accesses. -/
def gEntry (l : DefaultLayer) (i j : ℕ) : ℚ := (l.gradient_batch.getD i []).getD j 0

/-- Entry (i, j) of the previous-sign matrix. -/
def sEntry (l : DefaultLayer) (i j : ℕ) : Int := (l.previous_signs.getD i []).getD j 0

/-- Entry (i, j) of the learning-rate matrix. -/
def rEntry (l : DefaultLayer) (i j : ℕ) : ℚ := (l.learning_rates.getD i []).getD j 0

/-- Entry (i, j) of the weight matrix. -/
def wEntry (l : DefaultLayer) (i j : ℕ) : ℚ := (l.weights.getD i []).getD j 0

/-- Verification helper: a matrix zeroed but keeping its shape. -/
def zeroMatL (m : List (List ℚ)) : List (List ℚ) := m.map (fun r => r.map (fun _ => 0))

/-- Verification helper: a layer with its gradient accumulator zeroed. -/
def layerZeroG (l : DefaultLayer) : DefaultLayer :=
  { l with gradient_batch := zeroMatL l.gradient_batch }

/-- Verification helper: a network with every gradient accumulator zeroed.
netZeroG net = net states that the accumulators hold only zeros, which is
true of every freshly created, loaded, or fully trained network. -/
def NeuralNet.netZeroG (net : NeuralNet) : NeuralNet :=
  { net with layers := net.layers.map layerZeroG }

/-- Verification helper: offset one layers gradient accumulator by a matrix
(elementwise, driven by the own accumulator like DefaultLayer::combine). -/
def layerAddG (l : DefaultLayer) (d : List (List ℚ)) : DefaultLayer :=
  { l with gradient_batch := addMat l.gradient_batch d }

/-- Verification helper: offset every gradient accumulator of a network. -/
def layersAddG : List DefaultLayer → List (List (List ℚ)) → List DefaultLayer
  | [], _ => []
  | l :: ls, ds => layerAddG l (ds.headD []) :: layersAddG ls ds.tail

/-- Verification helper: network-level gradient offset. -/
def NeuralNet.netAddG (net : NeuralNet) (ds : List (List (List ℚ))) : NeuralNet :=
  { net with layers := layersAddG net.layers ds }

/-- Verification helper: the gradient accumulators of a network. -/
def NeuralNet.gbOf (net : NeuralNet) : List (List (List ℚ)) :=
  net.layers.map DefaultLayer.gradient_batch

/-- One training step of backpropagate_nonapply: forward pass then backward
pass for a single sample. -/
def NeuralNet.sampleStep (th : ℚ → ℚ) (net : NeuralNet) (s : TrainSample) : NeuralNet :=
  (net.feedforward_inner th s.inputs).backpropagate_inner th s.inputs s.outputs

/-- Verification helper: the per-layer data unchanged by forward and backward
passes — companion matrices, weights, transfer function — together with the
lengths of the mutable buffers. -/
def skelL (l : DefaultLayer) :
    List (List ℚ) × List (List Int) × List (List ℚ) × TransferFunction × ℕ × List ℕ :=
  (l.learning_rates, l.previous_signs, l.weights, l.transfer_function,
    l.neurons.length, matShape l.gradient_batch)

/-- Verification helper: two layers equal except for the neuron buffer
contents, with equal buffer lengths fitting inside the weight row count. -/
def layerTwin (a b : DefaultLayer) : Prop :=
  a.learning_rates = b.learning_rates ∧ a.previous_signs = b.previous_signs ∧
  a.gradient_batch = b.gradient_batch ∧ a.weights = b.weights ∧
  a.transfer_function = b.transfer_function ∧ a.neurons.length = b.neurons.length ∧
  a.neurons.length ≤ a.weights.length

/-- Verification helper: add two lists of gradient matrices, driven by the
first list like the combine loops. -/
def gbAddL : List (List (List ℚ)) → List (List (List ℚ)) → List (List (List ℚ))
  | [], _ => []
  | g :: gs, ds => addMat g (ds.headD []) :: gbAddL gs ds.tail

/-- Verification helper: matrices in matching shapes, pairwise. -/
def gbShapeRel (gs hs : List (List (List ℚ))) : Prop :=
  List.Forall₂ (fun m n => matShape m = matShape n) gs hs

/-! ### Basic list helpers -/

theorem getD_zero_cons (a : α) (l : List α) (d : α) : (a :: l).getD 0 d = a := rfl

theorem getD_succ_cons (a : α) (l : List α) (d : α) (n : ℕ) :
    (a :: l).getD (n + 1) d = l.getD n d := rfl

theorem getD_tail (l : List α) (d : α) (n : ℕ) : l.tail.getD n d = l.getD (n + 1) d := by
  cases l <;> rfl

theorem headD_eq_getD (l : List α) (d : α) : l.headD d = l.getD 0 d := by
  cases l <;> rfl

/-! ### Lengths of the layer primitives -/

theorem zipAdd_length (inputs : List ℚ) (d : ℚ) (row : List ℚ) :
    (zipAdd inputs d row).length = row.length := by
  induction inputs generalizing row with
  | nil => rfl
  | cons i is ih => cases row with
    | nil => rfl
    | cons g gs => simpa [zipAdd] using ih gs

theorem bumpLast_length (row : List ℚ) (d : ℚ) : (bumpLast row d).length = row.length := by
  induction row with
  | nil => rfl
  | cons g gs ih =>
    cases gs with
    | nil => rfl
    | cons g2 gs2 => simpa [bumpLast] using ih

theorem addGrads_length (inputs : List ℚ) (d : ℚ) (row : List ℚ) :
    (addGrads inputs d row).length = row.length := by
  rw [addGrads, bumpLast_length, zipAdd_length]

theorem gbUpdate_length (inputs : List ℚ) (ds : List ℚ) (gb : List (List ℚ)) :
    (gbUpdate inputs ds gb).length = gb.length := by
  induction ds generalizing gb with
  | nil => rfl
  | cons d ds ih => cases gb with
    | nil => rfl
    | cons row rows => simpa [gbUpdate] using ih rows

theorem addRow_length (g os : List ℚ) : (addRow g os).length = g.length := by
  induction g generalizing os with
  | nil => rfl
  | cons x xs ih => simpa [addRow] using ih os.tail

theorem addMat_length (g os : List (List ℚ)) : (addMat g os).length = g.length := by
  induction g generalizing os with
  | nil => rfl
  | cons r rs ih => simpa [addMat] using ih os.tail

theorem feedNeurons_length (th : ℚ → ℚ) (ptf : TransferFunction) (prev ns : List ℚ)
    (ws : List (List ℚ)) : (feedNeurons th ptf prev ns ws).length = ns.length := by
  induction ns generalizing ws with
  | nil => cases ws <;> rfl
  | cons n ns ih => cases ws with
    | nil => rfl
    | cons row rows => simpa [feedNeurons] using ih rows

theorem derivsFrom_length (th : ℚ → ℚ) (tf : TransferFunction) (errs : InnerOuter)
    (i : ℕ) (ns : List ℚ) : (derivsFrom th tf errs i ns).length = ns.length := by
  induction ns generalizing i with
  | nil => rfl
  | cons n ns ih => simpa [derivsFrom] using ih (i + 1)

/-! ### Entry lemmas for the layer primitives -/

theorem zipAdd_getD_lt (inputs : List ℚ) (d : ℚ) (row : List ℚ) (j : ℕ)
    (hj : j < inputs.length) (hr : j < row.length) :
    (zipAdd inputs d row).getD j 0 = row.getD j 0 + d * inputs.getD j 0 := by
  induction inputs generalizing row j with
  | nil => simp at hj
  | cons i is ih =>
    cases row with
    | nil => simp at hr
    | cons g gs =>
      cases j with
      | zero => rfl
      | succ j =>
        simp only [zipAdd, getD_succ_cons]
        exact ih gs j (by simpa using hj) (by simpa using hr)

theorem zipAdd_getD_ge (inputs : List ℚ) (d : ℚ) (row : List ℚ) (j : ℕ)
    (hj : inputs.length ≤ j) :
    (zipAdd inputs d row).getD j 0 = row.getD j 0 := by
  induction inputs generalizing row j with
  | nil => rfl
  | cons i is ih =>
    cases row with
    | nil => rfl
    | cons g gs =>
      cases j with
      | zero => simp at hj
      | succ j =>
        simp only [zipAdd, getD_succ_cons]
        exact ih gs j (by simpa using hj)

theorem bumpLast_getD_last (row : List ℚ) (d : ℚ) (hrow : row ≠ []) :
    (bumpLast row d).getD (row.length - 1) 0 = row.getD (row.length - 1) 0 + d := by
  induction row with
  | nil => exact absurd rfl hrow
  | cons g gs ih =>
    cases gs with
    | nil => rfl
    | cons g2 gs2 =>
      have h := ih (by simp)
      simp only [bumpLast, List.length_cons]
      simpa [Nat.succ_sub_one] using h

theorem bumpLast_getD_lt (row : List ℚ) (d : ℚ) (j : ℕ) (hj : j + 1 < row.length) :
    (bumpLast row d).getD j 0 = row.getD j 0 := by
  induction row generalizing j with
  | nil => rfl
  | cons g gs ih =>
    cases gs with
    | nil => simp at hj
    | cons g2 gs2 =>
      cases j with
      | zero => rfl
      | succ j =>
        simp only [bumpLast, getD_succ_cons]
        exact ih j (by simpa using hj)

theorem addGrads_getD_lt (inputs : List ℚ) (d : ℚ) (row : List ℚ) (j : ℕ)
    (hj : j < inputs.length) (hr : row.length = inputs.length + 1) :
    (addGrads inputs d row).getD j 0 = row.getD j 0 + d * inputs.getD j 0 := by
  rw [addGrads, bumpLast_getD_lt, zipAdd_getD_lt inputs d row j hj (by omega)]
  rw [zipAdd_length]; omega

theorem addGrads_getD_last (inputs : List ℚ) (d : ℚ) (row : List ℚ)
    (hr : row.length = inputs.length + 1) :
    (addGrads inputs d row).getD inputs.length 0 = row.getD inputs.length 0 + d := by
  have h1 : (zipAdd inputs d row).length - 1 = inputs.length := by rw [zipAdd_length]; omega
  have h2 : zipAdd inputs d row ≠ [] := by
    intro h
    have := zipAdd_length inputs d row
    rw [h] at this; simp at this; omega
  have := bumpLast_getD_last (zipAdd inputs d row) d h2
  rw [h1] at this
  rw [addGrads, this, zipAdd_getD_ge inputs d row inputs.length (le_refl _)]

theorem gbUpdate_getD (inputs : List ℚ) (ds : List ℚ) (gb : List (List ℚ)) (i : ℕ)
    (hi : i < ds.length) (hg : i < gb.length) :
    (gbUpdate inputs ds gb).getD i [] = addGrads inputs (ds.getD i 0) (gb.getD i []) := by
  induction ds generalizing gb i with
  | nil => simp at hi
  | cons d ds ih =>
    cases gb with
    | nil => simp at hg
    | cons row rows =>
      cases i with
      | zero => rfl
      | succ i =>
        simp only [gbUpdate, getD_succ_cons]
        exact ih rows i (by simpa using hi) (by simpa using hg)

theorem gbUpdate_getD_ge (inputs : List ℚ) (ds : List ℚ) (gb : List (List ℚ)) (i : ℕ)
    (hi : ds.length ≤ i) :
    (gbUpdate inputs ds gb).getD i [] = gb.getD i [] := by
  induction ds generalizing gb i with
  | nil => rfl
  | cons d ds ih =>
    cases gb with
    | nil => rfl
    | cons row rows =>
      cases i with
      | zero => simp at hi
      | succ i =>
        simp only [gbUpdate, getD_succ_cons]
        exact ih rows i (by simpa using hi)

theorem derivsFrom_getD (th : ℚ → ℚ) (tf : TransferFunction) (errs : InnerOuter)
    (k : ℕ) (ns : List ℚ) (i : ℕ) (hi : i < ns.length) :
    (derivsFrom th tf errs k ns).getD i 0 =
      tf.dt_f th (ns.getD i 0) * errorAt th tf errs (k + i) (ns.getD i 0) := by
  induction ns generalizing k i with
  | nil => simp at hi
  | cons n ns ih =>
    cases i with
    | zero => rfl
    | succ i =>
      simp only [derivsFrom, getD_succ_cons]
      rw [ih (k + 1) i (by simpa using hi)]
      ring_nf

theorem feedNeurons_getD (th : ℚ → ℚ) (ptf : TransferFunction) (prev ns : List ℚ)
    (ws : List (List ℚ)) (i : ℕ) (hi : i < ns.length) (hw : i < ws.length) :
    (feedNeurons th ptf prev ns ws).getD i 0 =
      (List.zipWith (fun p w => ptf.t_f th p * w) prev (ws.getD i [])).sum
        + (ws.getD i []).getLastD 0 := by
  induction ns generalizing ws i with
  | nil => simp at hi
  | cons n ns ih =>
    cases ws with
    | nil => simp at hw
    | cons row rows =>
      cases i with
      | zero => rfl
      | succ i =>
        simp only [feedNeurons, getD_succ_cons]
        exact ih rows i (by simpa using hi) (by simpa using hw)

/-! ### Entry and length lemmas for the RPROP loops -/

theorem rpropRow_getD_g (w g : List ℚ) (s : List Int) (r : List ℚ) (j : ℕ)
    (hj : j < w.length) :
    (rpropRow w g s r).g.getD j 0 =
      (rpropStep (g.getD j 0) (s.getD j 0) (r.getD j 0) (w.getD j 0)).1 := by
  induction w generalizing g s r j with
  | nil => simp at hj
  | cons x ws ih =>
    cases j with
    | zero => cases g <;> cases s <;> cases r <;> rfl
    | succ j =>
      simp only [rpropRow, getD_succ_cons]
      rw [ih _ _ _ j (by simpa using hj), getD_tail, getD_tail, getD_tail]

theorem rpropRow_getD_s (w g : List ℚ) (s : List Int) (r : List ℚ) (j : ℕ)
    (hj : j < w.length) :
    (rpropRow w g s r).s.getD j 0 =
      (rpropStep (g.getD j 0) (s.getD j 0) (r.getD j 0) (w.getD j 0)).2.1 := by
  induction w generalizing g s r j with
  | nil => simp at hj
  | cons x ws ih =>
    cases j with
    | zero => cases g <;> cases s <;> cases r <;> rfl
    | succ j =>
      simp only [rpropRow, getD_succ_cons]
      rw [ih _ _ _ j (by simpa using hj), getD_tail, getD_tail, getD_tail]

theorem rpropRow_getD_r (w g : List ℚ) (s : List Int) (r : List ℚ) (j : ℕ)
    (hj : j < w.length) :
    (rpropRow w g s r).r.getD j 0 =
      (rpropStep (g.getD j 0) (s.getD j 0) (r.getD j 0) (w.getD j 0)).2.2.1 := by
  induction w generalizing g s r j with
  | nil => simp at hj
  | cons x ws ih =>
    cases j with
    | zero => cases g <;> cases s <;> cases r <;> rfl
    | succ j =>
      simp only [rpropRow, getD_succ_cons]
      rw [ih _ _ _ j (by simpa using hj), getD_tail, getD_tail, getD_tail]

theorem rpropRow_getD_w (w g : List ℚ) (s : List Int) (r : List ℚ) (j : ℕ)
    (hj : j < w.length) :
    (rpropRow w g s r).w.getD j 0 =
      (rpropStep (g.getD j 0) (s.getD j 0) (r.getD j 0) (w.getD j 0)).2.2.2 := by
  induction w generalizing g s r j with
  | nil => simp at hj
  | cons x ws ih =>
    cases j with
    | zero => cases g <;> cases s <;> cases r <;> rfl
    | succ j =>
      simp only [rpropRow, getD_succ_cons]
      rw [ih _ _ _ j (by simpa using hj), getD_tail, getD_tail, getD_tail]

theorem rpropMat_getD_g (wm gm : List (List ℚ)) (sm : List (List Int))
    (rm : List (List ℚ)) (i : ℕ) (hi : i < wm.length) :
    (rpropMat wm gm sm rm).g.getD i [] =
      (rpropRow (wm.getD i []) (gm.getD i []) (sm.getD i []) (rm.getD i [])).g := by
  induction wm generalizing gm sm rm i with
  | nil => simp at hi
  | cons x ws ih =>
    cases i with
    | zero => cases gm <;> cases sm <;> cases rm <;> rfl
    | succ i =>
      simp only [rpropMat, getD_succ_cons]
      rw [ih _ _ _ i (by simpa using hi), getD_tail, getD_tail, getD_tail]

theorem rpropMat_getD_s (wm gm : List (List ℚ)) (sm : List (List Int))
    (rm : List (List ℚ)) (i : ℕ) (hi : i < wm.length) :
    (rpropMat wm gm sm rm).s.getD i [] =
      (rpropRow (wm.getD i []) (gm.getD i []) (sm.getD i []) (rm.getD i [])).s := by
  induction wm generalizing gm sm rm i with
  | nil => simp at hi
  | cons x ws ih =>
    cases i with
    | zero => cases gm <;> cases sm <;> cases rm <;> rfl
    | succ i =>
      simp only [rpropMat, getD_succ_cons]
      rw [ih _ _ _ i (by simpa using hi), getD_tail, getD_tail, getD_tail]

theorem rpropMat_getD_r (wm gm : List (List ℚ)) (sm : List (List Int))
    (rm : List (List ℚ)) (i : ℕ) (hi : i < wm.length) :
    (rpropMat wm gm sm rm).r.getD i [] =
      (rpropRow (wm.getD i []) (gm.getD i []) (sm.getD i []) (rm.getD i [])).r := by
  induction wm generalizing gm sm rm i with
  | nil => simp at hi
  | cons x ws ih =>
    cases i with
    | zero => cases gm <;> cases sm <;> cases rm <;> rfl
    | succ i =>
      simp only [rpropMat, getD_succ_cons]
      rw [ih _ _ _ i (by simpa using hi), getD_tail, getD_tail, getD_tail]

theorem rpropMat_getD_w (wm gm : List (List ℚ)) (sm : List (List Int))
    (rm : List (List ℚ)) (i : ℕ) (hi : i < wm.length) :
    (rpropMat wm gm sm rm).w.getD i [] =
      (rpropRow (wm.getD i []) (gm.getD i []) (sm.getD i []) (rm.getD i [])).w := by
  induction wm generalizing gm sm rm i with
  | nil => simp at hi
  | cons x ws ih =>
    cases i with
    | zero => cases gm <;> cases sm <;> cases rm <;> rfl
    | succ i =>
      simp only [rpropMat, getD_succ_cons]
      rw [ih _ _ _ i (by simpa using hi), getD_tail, getD_tail, getD_tail]

theorem rpropRow_w_length (w g : List ℚ) (s : List Int) (r : List ℚ) :
    (rpropRow w g s r).w.length = w.length := by
  induction w generalizing g s r with
  | nil => rfl
  | cons x ws ih => simpa [rpropRow] using ih g.tail s.tail r.tail

theorem rpropMat_w_length (wm gm : List (List ℚ)) (sm : List (List Int))
    (rm : List (List ℚ)) : (rpropMat wm gm sm rm).w.length = wm.length := by
  induction wm generalizing gm sm rm with
  | nil => rfl
  | cons x ws ih => simpa [rpropMat] using ih gm.tail sm.tail rm.tail

theorem rpropRow_g_length (w g : List ℚ) (s : List Int) (r : List ℚ)
    (h : g.length = w.length) : (rpropRow w g s r).g.length = w.length := by
  induction w generalizing g s r with
  | nil => simpa [rpropRow] using h
  | cons x ws ih =>
    simp only [rpropRow, List.length_cons]
    rw [ih g.tail s.tail r.tail]
    cases g with
    | nil => simp at h
    | cons a as => simpa using h

theorem rpropRow_s_length (w g : List ℚ) (s : List Int) (r : List ℚ)
    (h : s.length = w.length) : (rpropRow w g s r).s.length = w.length := by
  induction w generalizing g s r with
  | nil => simpa [rpropRow] using h
  | cons x ws ih =>
    simp only [rpropRow, List.length_cons]
    rw [ih g.tail s.tail r.tail]
    cases s with
    | nil => simp at h
    | cons a as => simpa using h

theorem rpropRow_r_length (w g : List ℚ) (s : List Int) (r : List ℚ)
    (h : r.length = w.length) : (rpropRow w g s r).r.length = w.length := by
  induction w generalizing g s r with
  | nil => simpa [rpropRow] using h
  | cons x ws ih =>
    simp only [rpropRow, List.length_cons]
    rw [ih g.tail s.tail r.tail]
    cases r with
    | nil => simp at h
    | cons a as => simpa using h

/-! ### Shapes -/

theorem matShape_cons (r : List α) (m : List (List α)) :
    matShape (r :: m) = r.length :: matShape m := rfl

theorem matShape_gbUpdate (inputs ds : List ℚ) (gb : List (List ℚ)) :
    matShape (gbUpdate inputs ds gb) = matShape gb := by
  induction ds generalizing gb with
  | nil => rfl
  | cons d ds ih =>
    cases gb with
    | nil => rfl
    | cons row rows =>
      simp only [gbUpdate, matShape_cons, ih rows, addGrads_length]

theorem matShape_addMat (g os : List (List ℚ)) : matShape (addMat g os) = matShape g := by
  induction g generalizing os with
  | nil => rfl
  | cons r rs ih =>
    simp only [addMat, matShape_cons, addRow_length, ih os.tail]

theorem matShape_rpropMat_w (wm gm : List (List ℚ)) (sm : List (List Int))
    (rm : List (List ℚ)) : matShape (rpropMat wm gm sm rm).w = matShape wm := by
  induction wm generalizing gm sm rm with
  | nil => rfl
  | cons x ws ih =>
    simp only [rpropMat, matShape_cons, rpropRow_w_length, ih gm.tail sm.tail rm.tail]

theorem matShape_rpropMat_g (wm gm : List (List ℚ)) (sm : List (List Int))
    (rm : List (List ℚ)) (h : matShape gm = matShape wm) :
    matShape (rpropMat wm gm sm rm).g = matShape wm := by
  induction wm generalizing gm sm rm with
  | nil =>
    cases gm with
    | nil => rfl
    | cons a as => simp [matShape] at h
  | cons x ws ih =>
    cases gm with
    | nil => simp [matShape] at h
    | cons a as =>
      simp only [matShape_cons, List.cons.injEq] at h
      simp only [rpropMat, matShape_cons, List.tail_cons, List.headD_cons]
      rw [rpropRow_g_length _ _ _ _ h.1, ih as sm.tail rm.tail h.2]

theorem matShape_rpropMat_s (wm gm : List (List ℚ)) (sm : List (List Int))
    (rm : List (List ℚ)) (h : matShape sm = matShape wm) :
    matShape (rpropMat wm gm sm rm).s = matShape wm := by
  induction wm generalizing gm sm rm with
  | nil =>
    cases sm with
    | nil => rfl
    | cons a as => simp [matShape] at h
  | cons x ws ih =>
    cases sm with
    | nil => simp [matShape] at h
    | cons a as =>
      simp only [matShape_cons, List.cons.injEq] at h
      simp only [rpropMat, matShape_cons, List.tail_cons, List.headD_cons]
      rw [rpropRow_s_length _ _ _ _ h.1, ih gm.tail as rm.tail h.2]

theorem matShape_rpropMat_r (wm gm : List (List ℚ)) (sm : List (List Int))
    (rm : List (List ℚ)) (h : matShape rm = matShape wm) :
    matShape (rpropMat wm gm sm rm).r = matShape wm := by
  induction wm generalizing gm sm rm with
  | nil =>
    cases rm with
    | nil => rfl
    | cons a as => simp [matShape] at h
  | cons x ws ih =>
    cases rm with
    | nil => simp [matShape] at h
    | cons a as =>
      simp only [matShape_cons, List.cons.injEq] at h
      simp only [rpropMat, matShape_cons, List.tail_cons, List.headD_cons]
      rw [rpropRow_r_length _ _ _ _ h.1, ih gm.tail sm.tail as h.2]

theorem matShape_length_eq {m n : List (List α)} (h : matShape m = matShape n) :
    m.length = n.length := by
  have := congrArg List.length h
  simpa [matShape] using this

theorem matShape_getD (m : List (List α)) (i : ℕ) :
    (matShape m).getD i 0 = (m.getD i []).length := by
  induction m generalizing i with
  | nil => rfl
  | cons a as ih =>
    cases i with
    | zero => rfl
    | succ i => simpa [matShape] using ih i

theorem matShape_row_length {m n : List (List α)} (h : matShape m = matShape n) (i : ℕ) :
    (m.getD i []).length = (n.getD i []).length := by
  rw [← matShape_getD, ← matShape_getD, h]

/-! ### Bounds of the RPROP rate update -/

theorem rpropStep_rate_bound (g : ℚ) (s : Int) (r w : ℚ)
    (h1 : 1/1000000 ≤ r) (h2 : r ≤ 1/100) :
    1/1000000 ≤ (rpropStep g s r w).2.2.1 ∧ (rpropStep g s r w).2.2.1 ≤ 1/100 := by
  simp only [rpropStep]
  split_ifs with hc1 hc2
  · exact ⟨le_min (by linarith) (by norm_num), min_le_right _ _⟩
  · exact ⟨le_max_right _ _, max_le (by linarith) (by norm_num)⟩
  · exact ⟨h1, h2⟩

/-! ### Entry characterization of apply_gradients -/

theorem apply_gradients_gEntry (l : DefaultLayer) (i j : ℕ)
    (hi : i < l.weights.length) (hj : j < (l.weights.getD i []).length) :
    gEntry l.apply_gradients i j =
      (rpropStep (gEntry l i j) (sEntry l i j) (rEntry l i j) (wEntry l i j)).1 := by
  simp only [gEntry, sEntry, rEntry, wEntry, DefaultLayer.apply_gradients]
  rw [rpropMat_getD_g _ _ _ _ i hi, rpropRow_getD_g _ _ _ _ j hj]

theorem apply_gradients_sEntry (l : DefaultLayer) (i j : ℕ)
    (hi : i < l.weights.length) (hj : j < (l.weights.getD i []).length) :
    sEntry l.apply_gradients i j =
      (rpropStep (gEntry l i j) (sEntry l i j) (rEntry l i j) (wEntry l i j)).2.1 := by
  simp only [gEntry, sEntry, rEntry, wEntry, DefaultLayer.apply_gradients]
  rw [rpropMat_getD_s _ _ _ _ i hi, rpropRow_getD_s _ _ _ _ j hj]

theorem apply_gradients_rEntry (l : DefaultLayer) (i j : ℕ)
    (hi : i < l.weights.length) (hj : j < (l.weights.getD i []).length) :
    rEntry l.apply_gradients i j =
      (rpropStep (gEntry l i j) (sEntry l i j) (rEntry l i j) (wEntry l i j)).2.2.1 := by
  simp only [gEntry, sEntry, rEntry, wEntry, DefaultLayer.apply_gradients]
  rw [rpropMat_getD_r _ _ _ _ i hi, rpropRow_getD_r _ _ _ _ j hj]

theorem apply_gradients_wEntry (l : DefaultLayer) (i j : ℕ)
    (hi : i < l.weights.length) (hj : j < (l.weights.getD i []).length) :
    wEntry l.apply_gradients i j =
      (rpropStep (gEntry l i j) (sEntry l i j) (rEntry l i j) (wEntry l i j)).2.2.2 := by
  simp only [gEntry, sEntry, rEntry, wEntry, DefaultLayer.apply_gradients]
  rw [rpropMat_getD_w _ _ _ _ i hi, rpropRow_getD_w _ _ _ _ j hj]

theorem rpropStep_cases (g : ℚ) (s : Int) (r w : ℚ) :
    (rpropStep g s r w).1 = 0 ∧
    (0 < new_sign g * s →
      rpropStep g s r w =
        (0, new_sign g, min (r * (12/10)) (1/100),
          w - min (r * (12/10)) (1/100) * (new_sign g : ℚ))) ∧
    (new_sign g * s < 0 →
      rpropStep g s r w = (0, 0, max (r * (1/2)) (1/1000000), w)) ∧
    (new_sign g * s = 0 →
      rpropStep g s r w = (0, new_sign g, r, w - r * (new_sign g : ℚ))) := by
  refine ⟨?_, ?_, ?_, ?_⟩
  · simp only [rpropStep]
    split_ifs <;> rfl
  · intro h
    simp only [rpropStep, if_pos h]
  · intro h
    have h2 : ¬ 0 < new_sign g * s := by omega
    simp only [rpropStep, if_neg h2, if_pos h]
  · intro h
    have h2 : ¬ 0 < new_sign g * s := by omega
    have h3 : ¬ new_sign g * s < 0 := by omega
    simp only [rpropStep, if_neg h2, if_neg h3]

/-- Claim C2: apply_gradients performs the RPROP update independently on
every weight: with g the accumulated gradient, s the previous sign, r the
rate and w the weight, and signNow = new_sign g, a positive product grows
the rate to min(r*1.2, 0.01) and steps the weight against the sign, a
negative product halves the rate (floored at 1e-6) leaving the weight
unchanged and clearing the sign, a zero product steps the weight with the
unchanged rate, and the gradient entry is reset to 0 in every case. -/
theorem c2_rprop_update (l : DefaultLayer) (i j : ℕ)
    (hi : i < l.weights.length) (hj : j < (l.weights.getD i []).length) :
    gEntry l.apply_gradients i j = 0 ∧
    (0 < new_sign (gEntry l i j) * sEntry l i j →
      rEntry l.apply_gradients i j = min (rEntry l i j * (12/10)) (1/100) ∧
      wEntry l.apply_gradients i j =
        wEntry l i j - min (rEntry l i j * (12/10)) (1/100) * (new_sign (gEntry l i j) : ℚ) ∧
      sEntry l.apply_gradients i j = new_sign (gEntry l i j)) ∧
    (new_sign (gEntry l i j) * sEntry l i j < 0 →
      rEntry l.apply_gradients i j = max (rEntry l i j * (1/2)) (1/1000000) ∧
      wEntry l.apply_gradients i j = wEntry l i j ∧
      sEntry l.apply_gradients i j = 0) ∧
    (new_sign (gEntry l i j) * sEntry l i j = 0 →
      rEntry l.apply_gradients i j = rEntry l i j ∧
      wEntry l.apply_gradients i j = wEntry l i j - rEntry l i j * (new_sign (gEntry l i j) : ℚ) ∧
      sEntry l.apply_gradients i j = new_sign (gEntry l i j)) := by
  have hg := apply_gradients_gEntry l i j hi hj
  have hs := apply_gradients_sEntry l i j hi hj
  have hr := apply_gradients_rEntry l i j hi hj
  have hw := apply_gradients_wEntry l i j hi hj
  obtain ⟨h0, hpos, hneg, hzero⟩ :=
    rpropStep_cases (gEntry l i j) (sEntry l i j) (rEntry l i j) (wEntry l i j)
  refine ⟨by rw [hg, h0], ?_, ?_, ?_⟩
  · intro h
    rw [hr, hw, hs, hpos h]
    exact ⟨rfl, rfl, rfl⟩
  · intro h
    rw [hr, hw, hs, hneg h]
    exact ⟨rfl, rfl, rfl⟩
  · intro h
    rw [hr, hw, hs, hzero h]
    exact ⟨rfl, rfl, rfl⟩

theorem c2_rprop_update_witness :
    gEntry (DefaultLayer.new (fun _ _ => 3/4) 1 1 TransferFunction.Sigmoid).apply_gradients 0 0
      = 0 :=
  (c2_rprop_update (DefaultLayer.new (fun _ _ => 3/4) 1 1 TransferFunction.Sigmoid) 0 0
    (by decide) (by decide)).1

/-- Counterexample to claim C4: a freshly constructed layer has learning
rates 0.1; with a zero batch gradient the sign product is zero and
apply_gradients leaves the rate at 0.1, outside [0.000001, 0.01]. -/
theorem c4_counterexample :
    rEntry (DefaultLayer.new (fun _ _ => 3/4) 1 0 TransferFunction.Nothing).apply_gradients 0 0
        = 1/10 ∧
    ¬ ((1:ℚ)/10 ≤ 1/100) := by
  constructor
  · have hi : (0:ℕ) < (DefaultLayer.new (fun _ _ => 3/4) 1 0 TransferFunction.Nothing).weights.length := by
      simp [DefaultLayer.new]
    have hj : (0:ℕ) <
        ((DefaultLayer.new (fun _ _ => 3/4) 1 0 TransferFunction.Nothing).weights.getD 0 []).length := by
      simp [DefaultLayer.new, List.range_succ]
    rw [apply_gradients_rEntry _ 0 0 hi hj]
    norm_num [gEntry, sEntry, rEntry, wEntry, DefaultLayer.new, List.range_succ,
      rpropStep, new_sign]
  · norm_num

/-- Claim C4, amended: the interval [0.000001, 0.01] is preserved by
apply_gradients — every learning rate inside it before the call is inside it
after — but a fresh layer starts at 0.1 and a call need not bring a rate
into the interval (see the zero-gradient counterexample). -/
theorem c4_rate_bound_preserved (l : DefaultLayer)
    (hshape : matShape l.learning_rates = matShape l.weights)
    (hb : ∀ i j, i < l.weights.length → j < (l.weights.getD i []).length →
      1/1000000 ≤ rEntry l i j ∧ rEntry l i j ≤ 1/100) :
    ∀ i j, i < l.apply_gradients.weights.length →
      j < (l.apply_gradients.weights.getD i []).length →
      1/1000000 ≤ rEntry l.apply_gradients i j ∧ rEntry l.apply_gradients i j ≤ 1/100 := by
  intro i j hi hj
  have hwm : l.apply_gradients.weights =
      (rpropMat l.weights l.gradient_batch l.previous_signs l.learning_rates).w := rfl
  have hi2 : i < l.weights.length := by
    rw [hwm, rpropMat_w_length] at hi
    exact hi
  have hj2 : j < (l.weights.getD i []).length := by
    have hsh := matShape_rpropMat_w l.weights l.gradient_batch l.previous_signs l.learning_rates
    have := matShape_row_length hsh i
    rw [hwm] at hj
    omega
  rw [apply_gradients_rEntry l i j hi2 hj2]
  exact rpropStep_rate_bound _ _ _ _ (hb i j hi2 hj2).1 (hb i j hi2 hj2).2

theorem c4_rate_bound_preserved_witness :
    1/1000000 ≤ rEntry
        (DefaultLayer.mk [0] [[1/100, 1/100]] [[1, 1]] [[0, 0]] [[1/2, 1/2]]
          TransferFunction.Sigmoid).apply_gradients 0 0 ∧
      rEntry (DefaultLayer.mk [0] [[1/100, 1/100]] [[1, 1]] [[0, 0]] [[1/2, 1/2]]
          TransferFunction.Sigmoid).apply_gradients 0 0 ≤ 1/100 :=
  c4_rate_bound_preserved
    (DefaultLayer.mk [0] [[1/100, 1/100]] [[1, 1]] [[0, 0]] [[1/2, 1/2]]
      TransferFunction.Sigmoid)
    (by decide)
    (by
      intro i j hi hj
      have hi1 : i = 0 := by simpa using hi
      subst hi1
      have hj2 : j < 2 := by simpa using hj
      interval_cases j <;> norm_num [rEntry])
    0 0 (by decide) (by decide)

/-! ### Persistence and shapes -/

theorem matShape_map_replicate (m : List (List α)) (c : β) :
    matShape (m.map (fun wc => List.replicate wc.length c)) = matShape m := by
  simp [matShape, List.map_map, Function.comp]

theorem matShape_map_map (m : List (List α)) (f : α → β) :
    matShape (m.map (List.map f)) = matShape m := by
  simp [matShape, List.map_map, Function.comp]

theorem forall_row_length_of_matShape {m n : List (List α)} (h : matShape m = matShape n)
    (k : ℕ) (hn : ∀ row ∈ n, row.length = k) : ∀ row ∈ m, row.length = k := by
  induction m generalizing n with
  | nil => intro row hrow; simp at hrow
  | cons a as ih =>
    cases n with
    | nil => simp [matShape] at h
    | cons b bs =>
      simp only [matShape_cons, List.cons.injEq] at h
      intro row hrow
      rcases List.mem_cons.1 hrow with rfl | hmem
      · rw [h.1]
        exact hn b (List.mem_cons_self b bs)
      · exact ih h.2 (fun r hr => hn r (List.mem_cons_of_mem b hr)) row hmem

/-- Claim C5: save followed by load reproduces the input size and, per layer,
the weights, learning rates, previous signs and transfer function, while the
transient neuron buffer comes back zero-filled with one entry per weight row
and the gradient accumulator comes back zero-filled in the exact weight
shape. -/
theorem c5_save_load_roundtrip (net : NeuralNet) :
    (NeuralNet.load net.save).inputs_amount = net.inputs_amount ∧
    (NeuralNet.load net.save).layers.map DefaultLayer.weights =
      net.layers.map DefaultLayer.weights ∧
    (NeuralNet.load net.save).layers.map DefaultLayer.learning_rates =
      net.layers.map DefaultLayer.learning_rates ∧
    (NeuralNet.load net.save).layers.map DefaultLayer.previous_signs =
      net.layers.map DefaultLayer.previous_signs ∧
    (NeuralNet.load net.save).layers.map DefaultLayer.transfer_function =
      net.layers.map DefaultLayer.transfer_function ∧
    (NeuralNet.load net.save).layers.map DefaultLayer.neurons =
      net.layers.map (fun l => List.replicate l.weights.length 0) ∧
    (NeuralNet.load net.save).layers.map DefaultLayer.gradient_batch =
      net.layers.map (fun l => l.weights.map (fun wc => List.replicate wc.length 0)) := by
  simp [NeuralNet.load, NeuralNet.save, SavedLayer.toLayer, DefaultLayer.reset_temporary,
    List.map_map, Function.comp]

/-- Claim C6: the shape invariant — one weight row per neuron, previous size
plus one columns, and learning-rate, sign and gradient matrices in the exact
weight shape — holds after construction and is preserved by every layer
operation: reset (load), forward, backward, apply_gradients and combine. -/
theorem c6_shape_invariants (rng : ℕ → ℕ → ℚ) (size prevSize : ℕ) (tf : TransferFunction)
    (l other : DefaultLayer) (th : ℚ → ℚ) (prevActs inputs : List ℚ)
    (ptf : TransferFunction) (errs : InnerOuter)
    (hl : layerShapeOK prevSize l) :
    (layerShapeOK prevSize (DefaultLayer.new rng size prevSize tf) ∧
      (DefaultLayer.new rng size prevSize tf).weights.length = size) ∧
    layerShapeOK prevSize (l.feedforward th prevActs ptf) ∧
    layerShapeOK prevSize (l.backpropagate th inputs errs) ∧
    layerShapeOK prevSize l.apply_gradients ∧
    layerShapeOK prevSize (l.combine other) ∧
    layerShapeOK prevSize l.reset_temporary := by
  obtain ⟨h1, h2, h3, h4, h5⟩ := hl
  refine ⟨⟨⟨?_, ?_, ?_, ?_, ?_⟩, ?_⟩, ?_, ?_, ?_, ?_, ?_⟩
  · simp [DefaultLayer.new]
  · intro row hrow
    simp only [DefaultLayer.new, List.mem_map, List.mem_range] at hrow
    obtain ⟨i, _, rfl⟩ := hrow
    simp
  · exact matShape_map_replicate _ _
  · exact matShape_map_map _ _
  · exact matShape_map_replicate _ _
  · simp [DefaultLayer.new]
  · exact ⟨by simpa [DefaultLayer.feedforward, feedNeurons_length] using h1, h2, h3, h4, h5⟩
  · refine ⟨?_, h2, h3, h4, ?_⟩
    · simpa [DefaultLayer.backpropagate, derivsFrom_length] using h1
    · simpa [DefaultLayer.backpropagate, matShape_gbUpdate] using h5
  · refine ⟨?_, ?_, ?_, ?_, ?_⟩
    · simpa [DefaultLayer.apply_gradients, rpropMat_w_length] using h1
    · exact forall_row_length_of_matShape (matShape_rpropMat_w _ _ _ _) _ h2
    · rw [show DefaultLayer.apply_gradients l = DefaultLayer.apply_gradients l from rfl]
      simp only [DefaultLayer.apply_gradients]
      rw [matShape_rpropMat_r _ _ _ _ h3, matShape_rpropMat_w]
    · simp only [DefaultLayer.apply_gradients]
      rw [matShape_rpropMat_s _ _ _ _ h4, matShape_rpropMat_w]
    · simp only [DefaultLayer.apply_gradients]
      rw [matShape_rpropMat_g _ _ _ _ h5, matShape_rpropMat_w]
  · exact ⟨h1, h2, h3, h4, by simpa [DefaultLayer.combine, matShape_addMat] using h5⟩
  · exact ⟨by simp [DefaultLayer.reset_temporary], h2, h3, h4,
      by simpa [DefaultLayer.reset_temporary] using matShape_map_replicate l.weights (0:ℚ)⟩

theorem c6_shape_invariants_witness :
    layerShapeOK 1
      (DefaultLayer.mk [0] [[1/100, 1/100]] [[1, 1]] [[0, 0]] [[1/2, 1/2]]
        TransferFunction.Sigmoid).apply_gradients :=
  (c6_shape_invariants (fun _ _ => 3/4) 1 1 TransferFunction.Sigmoid
    (DefaultLayer.mk [0] [[1/100, 1/100]] [[1, 1]] [[0, 0]] [[1/2, 1/2]]
      TransferFunction.Sigmoid)
    (DefaultLayer.mk [0] [[1/100, 1/100]] [[1, 1]] [[0, 0]] [[1/2, 1/2]]
      TransferFunction.Sigmoid)
    (fun q => q) [0] [0] TransferFunction.Nothing (InnerOuter.Outputs [0])
    (by decide)).2.2.2.1

/-! ### The inference boundary and the thread guard -/

/-- Counterexample to claim C9: with a non-null path and a non-null image but
a model file that fails to load, recognize hits an unwrap and panics (none);
it does not return the all-zero vector the claim promises for invalid
inputs. -/
theorem c9_counterexample :
    recognize (fun q => q) (fun _ => none) (some "model") (some (fun _ => 0)) = none ∧
    recognize (fun q => q) (fun _ => none) (some "model") (some (fun _ => 0)) ≠
      some (List.replicate 10 0) := by
  refine ⟨rfl, ?_⟩
  intro h
  simp [recognize] at h

/-- Claim C9, amended: whenever recognize returns a vector it has length 10
(the output arity is checked by the conversion to the fixed-size result and
anything else panics), and on a null path or image it returns the all-zero
length-10 vector; a non-null but invalid input (a model that fails to load,
or a loaded model with a non-10 output layer) panics instead of returning
zeros. -/
theorem c9_recognize_amended (th : ℚ → ℚ) (lf : String → Option SavedNet)
    (p : Option String) (img : Option (ℕ → ℕ)) (v : List ℚ)
    (h : recognize th lf p img = some v) :
    v.length = 10 ∧ (p = none ∨ img = none → v = List.replicate 10 0) := by
  cases p with
  | none =>
    simp only [recognize, Option.some.injEq] at h
    subst h
    exact ⟨by simp, fun _ => rfl⟩
  | some path =>
    cases img with
    | none =>
      simp only [recognize, Option.some.injEq] at h
      subst h
      exact ⟨by simp, fun _ => rfl⟩
    | some f =>
      refine ⟨?_, ?_⟩
      · cases hl : lf path with
        | none => simp [recognize, hl] at h
        | some saved =>
          simp only [recognize, hl] at h
          split at h
          · next hlen =>
            injection h with h2
            rw [← h2]
            exact hlen
          · exact absurd h (by simp)
      · intro hcon
        rcases hcon with hcon | hcon <;> exact absurd hcon (by simp)

theorem c9_recognize_amended_witness :
    (List.replicate 10 (0:ℚ)).length = 10 ∧
      ((none : Option String) = none ∨ (none : Option (ℕ → ℕ)) = none →
        List.replicate 10 (0:ℚ) = List.replicate 10 0) :=
  c9_recognize_amended (fun q => q) (fun _ => none) none none (List.replicate 10 0) rfl

/-- Claim C10: calling backpropagate_multithreaded with threads = 0 panics
for every sample slice — the guard samples.len() >= threads always holds and
samples.len() / 0 is a division by zero — while any threads >= 1 returns
normally. -/
theorem c10_thread_zero_panics (th : ℚ → ℚ) (net : NeuralNet)
    (samples : List TrainSample) (threads : ℕ) (h : 1 ≤ threads) :
    net.backpropagate_multithreaded th samples 0 = none ∧
    (net.backpropagate_multithreaded th samples threads).isSome := by
  constructor
  · simp [NeuralNet.backpropagate_multithreaded]
  · unfold NeuralNet.backpropagate_multithreaded
    by_cases hc : threads ≤ samples.length
    · have hz : threads ≠ 0 := by omega
      simp [hc, hz]
    · simp [hc]

theorem c10_thread_zero_panics_witness :
    (NeuralNet.mk 1 [layerDefault]).backpropagate_multithreaded (fun q => q) [] 0 = none ∧
    ((NeuralNet.mk 1 [layerDefault]).backpropagate_multithreaded (fun q => q) [] 1).isSome :=
  c10_thread_zero_panics (fun q => q) (NeuralNet.mk 1 [layerDefault]) [] 1 (by decide)

/-! ### Forward pass -/

theorem getD_map_of_lt (f : α → β) (l : List α) (i : ℕ) (hi : i < l.length)
    (d : α) (d2 : β) : (l.map f).getD i d2 = f (l.getD i d) := by
  induction l generalizing i with
  | nil => simp at hi
  | cons a as ih =>
    cases i with
    | zero => rfl
    | succ i => simpa using ih i (by simpa using hi)

/-- Claim C7: a layer stores, per neuron, the raw zip sum of the transformed
previous activations with its weight row plus the bias weight (no
self-transform); layer 0 is fed TransferFunction::Nothing so raw inputs pass
through; and Network::feedforward returns the last layers stored values with
that layers transfer function applied. -/
theorem c7_forward_raw_sums (th : ℚ → ℚ) (l : DefaultLayer) (prev : List ℚ)
    (ptf : TransferFunction) (i : ℕ) (hi : i < l.neurons.length) (hw : i < l.weights.length)
    (net : NeuralNet) (inputs : List ℚ) (l0 : DefaultLayer) (rest : List DefaultLayer)
    (hnet : net.layers = l0 :: rest) :
    ((l.feedforward th prev ptf).neurons.getD i 0 =
      (List.zipWith (fun p w => ptf.t_f th p * w) prev (l.weights.getD i [])).sum
        + (l.weights.getD i []).getLastD 0) ∧
    ((net.feedforward_inner th inputs).layers.headD layerDefault =
      l0.feedforward th inputs TransferFunction.Nothing) ∧
    ((net.feedforward th inputs).1 =
      ((net.feedforward_inner th inputs).layers.getLastD layerDefault).neurons.map
        (((net.feedforward_inner th inputs).layers.getLastD
          layerDefault).transfer_function.t_f th)) := by
  refine ⟨?_, ?_, rfl⟩
  · exact feedNeurons_getD th ptf prev l.neurons l.weights i hi hw
  · simp [NeuralNet.feedforward_inner, hnet, feedLayers]

theorem c7_forward_raw_sums_witness :
    (((DefaultLayer.mk [0] [[1/100, 1/100]] [[1, 1]] [[0, 0]] [[1/2, 1/2]]
        TransferFunction.Sigmoid).feedforward (fun q => q) [0]
        TransferFunction.Nothing).neurons.getD 0 0 =
      (List.zipWith (fun p w => TransferFunction.Nothing.t_f (fun q => q) p * w) [0]
        ((DefaultLayer.mk [0] [[1/100, 1/100]] [[1, 1]] [[0, 0]] [[1/2, 1/2]]
          TransferFunction.Sigmoid).weights.getD 0 [])).sum
        + ((DefaultLayer.mk [0] [[1/100, 1/100]] [[1, 1]] [[0, 0]] [[1/2, 1/2]]
          TransferFunction.Sigmoid).weights.getD 0 []).getLastD 0) :=
  (c7_forward_raw_sums (fun q => q)
    (DefaultLayer.mk [0] [[1/100, 1/100]] [[1, 1]] [[0, 0]] [[1/2, 1/2]]
      TransferFunction.Sigmoid)
    [0] TransferFunction.Nothing 0 (by decide) (by decide)
    (NeuralNet.mk 1 [layerDefault]) [0] layerDefault [] rfl).1

/-! ### Zero input into a fresh network -/

theorem zipWith_nothing_zero_sum (th : ℚ → ℚ) (n : ℕ) (row : List ℚ) :
    (List.zipWith (fun p w => TransferFunction.Nothing.t_f th p * w)
        (List.replicate n 0) row).sum = 0 := by
  induction n generalizing row with
  | zero => simp
  | succ n ih =>
    cases row with
    | nil => simp
    | cons w ws =>
      simp only [List.replicate_succ, List.zipWith_cons_cons, List.sum_cons, ih ws]
      simp [TransferFunction.t_f]

/-- Counterexample to claim C8: a freshly constructed two-layer network (all
rng draws 3/4 so every weight is 1/2) fed the all-zero input yields 3/4 on
its single output neuron, not transferFunction.value(biasWeight) = 1/2 — the
first-layer bias propagates through the second layer. -/
theorem c8_counterexample :
    ((NeuralNet.create (fun _ _ _ => 3/4) 1
        [⟨1, TransferFunction.Nothing⟩, ⟨1, TransferFunction.Nothing⟩]).feedforward
        (fun q => q) [0]).1 = [3/4] ∧
    ((((NeuralNet.create (fun _ _ _ => 3/4) 1
        [⟨1, TransferFunction.Nothing⟩, ⟨1, TransferFunction.Nothing⟩]).layers.getLastD
        layerDefault).weights.getD 0 []).getLastD 0 = 1/2) ∧
    ¬ ((3/4 : ℚ) = TransferFunction.Nothing.t_f (fun q => q) (1/2)) := by
  refine ⟨?_, ?_, ?_⟩
  · norm_num [NeuralNet.create, createLayers, DefaultLayer.new, NeuralNet.feedforward,
      NeuralNet.feedforward_inner, feedLayers, DefaultLayer.feedforward, feedNeurons,
      List.range_succ, TransferFunction.t_f]
  · norm_num [NeuralNet.create, createLayers, DefaultLayer.new, List.range_succ]
  · norm_num [TransferFunction.t_f]

/-- Claim C8, amended: for a freshly constructed network with a single layer,
feedforward on the all-zero input yields, for every output neuron, exactly
transferFunction.value of that neurons bias weight; with more layers the
first-layer biases feed the later layers, so the claim holds only for the
first layer of the chain. -/
theorem c8_zero_input_single_layer (th : ℚ → ℚ) (rng : ℕ → ℕ → ℕ → ℚ)
    (inputs_amount size : ℕ) (tf : TransferFunction) (i : ℕ) (hi : i < size) :
    ((NeuralNet.create rng inputs_amount [⟨size, tf⟩]).feedforward th
        (List.replicate inputs_amount 0)).1.getD i 0 =
      tf.t_f th ((((NeuralNet.create rng inputs_amount [⟨size, tf⟩]).layers.getD 0
        layerDefault).weights.getD i []).getLastD 0) := by
  simp only [NeuralNet.create, createLayers, NeuralNet.feedforward,
    NeuralNet.feedforward_inner, feedLayers, DefaultLayer.feedforward]
  simp only [List.getLastD_cons, List.getLastD_nil, getD_zero_cons]
  have hlen : i < (DefaultLayer.new (rng 0) size inputs_amount tf).neurons.length := by
    simp [DefaultLayer.new, hi]
  have hwlen : i < (DefaultLayer.new (rng 0) size inputs_amount tf).weights.length := by
    simp [DefaultLayer.new, hi]
  rw [getD_map_of_lt _ _ i (by simpa [feedNeurons_length] using hlen) 0]
  rw [feedNeurons_getD th TransferFunction.Nothing _ _ _ i hlen hwlen]
  rw [zipWith_nothing_zero_sum]
  have htf : (DefaultLayer.new (rng 0) size inputs_amount tf).transfer_function = tf := rfl
  rw [htf]
  norm_num

theorem c8_zero_input_single_layer_witness :
    ((NeuralNet.create (fun _ _ _ => 3/4) 2 [⟨1, TransferFunction.Sigmoid⟩]).feedforward
        (fun q => q) (List.replicate 2 0)).1.getD 0 0 =
      TransferFunction.Sigmoid.t_f (fun q => q)
        ((((NeuralNet.create (fun _ _ _ => 3/4) 2
          [⟨1, TransferFunction.Sigmoid⟩]).layers.getD 0
          layerDefault).weights.getD 0 []).getLastD 0) :=
  c8_zero_input_single_layer (fun q => q) (fun _ _ _ => 3/4) 2 1
    TransferFunction.Sigmoid 0 (by decide)

/-! ### Backward pass -/

/-- Claim C3: per neuron i the backward step computes the error — in the
last layer transferFunction.value(storedPreActivation) minus the expected
output, in a hidden layer the sum over the next layers neuron buffer (already
holding local gradients) times its weight column i — multiplies it by the
derivative at the stored pre-activation, adds localGradient * input_j to
gradientBatch[i][j] for every input index j and localGradient to the bias
entry, and overwrites neuron i with the local gradient. -/
theorem c3_backward_step (th : ℚ → ℚ) (l : DefaultLayer) (inputs : List ℚ)
    (errs : InnerOuter) (expected nns : List ℚ) (nws : List (List ℚ)) (i j : ℕ)
    (hi : i < l.neurons.length) (hgb : i < l.gradient_batch.length)
    (hrow : (l.gradient_batch.getD i []).length = inputs.length + 1)
    (hj : j < inputs.length) :
    ((l.backpropagate th inputs (InnerOuter.Outputs expected)).neurons.getD i 0 =
      l.transfer_function.dt_f th (l.neurons.getD i 0) *
        (l.transfer_function.t_f th (l.neurons.getD i 0) - expected.getD i 0)) ∧
    ((l.backpropagate th inputs (InnerOuter.Inners nns nws)).neurons.getD i 0 =
      l.transfer_function.dt_f th (l.neurons.getD i 0) *
        (List.zipWith (fun nn nw => nn * nw.getD i 0) nns nws).sum) ∧
    (((l.backpropagate th inputs errs).gradient_batch.getD i []).getD j 0 =
      (l.gradient_batch.getD i []).getD j 0 +
        (l.backpropagate th inputs errs).neurons.getD i 0 * inputs.getD j 0) ∧
    (((l.backpropagate th inputs errs).gradient_batch.getD i []).getD inputs.length 0 =
      (l.gradient_batch.getD i []).getD inputs.length 0 +
        (l.backpropagate th inputs errs).neurons.getD i 0) ∧
    (∀ net ins outs l0, NeuralNet.layers net = [l0] →
      (net.backpropagate_inner th ins outs).layers =
        [l0.backpropagate th ins (InnerOuter.Outputs outs)]) := by
  have hds : ∀ errs2 : InnerOuter,
      (l.backpropagate th inputs errs2).neurons =
        derivsFrom th l.transfer_function errs2 0 l.neurons := fun _ => rfl
  have hgbs : ∀ errs2 : InnerOuter,
      (l.backpropagate th inputs errs2).gradient_batch =
        gbUpdate inputs (derivsFrom th l.transfer_function errs2 0 l.neurons)
          l.gradient_batch := fun _ => rfl
  refine ⟨?_, ?_, ?_, ?_, ?_⟩
  · rw [hds, derivsFrom_getD th _ _ 0 _ i hi, Nat.zero_add]
    rfl
  · rw [hds, derivsFrom_getD th _ _ 0 _ i hi, Nat.zero_add]
    rfl
  · rw [hgbs, hds,
      gbUpdate_getD inputs _ _ i (by rwa [derivsFrom_length]) hgb,
      addGrads_getD_lt inputs _ _ j hj hrow]
  · rw [hgbs, hds,
      gbUpdate_getD inputs _ _ i (by rwa [derivsFrom_length]) hgb,
      addGrads_getD_last inputs _ _ hrow]
  · intro net ins outs l0 hnet
    simp [NeuralNet.backpropagate_inner, hnet, backLayers]

theorem c3_backward_step_witness :
    ((DefaultLayer.mk [0] [[1/100, 1/100]] [[1, 1]] [[0, 0]] [[1/2, 1/2]]
        TransferFunction.Nothing).backpropagate (fun q => q) [0]
        (InnerOuter.Outputs [0])).neurons.getD 0 0 =
      (DefaultLayer.mk [0] [[1/100, 1/100]] [[1, 1]] [[0, 0]] [[1/2, 1/2]]
        TransferFunction.Nothing).transfer_function.dt_f (fun q => q)
        ((DefaultLayer.mk [0] [[1/100, 1/100]] [[1, 1]] [[0, 0]] [[1/2, 1/2]]
          TransferFunction.Nothing).neurons.getD 0 0) *
        ((DefaultLayer.mk [0] [[1/100, 1/100]] [[1, 1]] [[0, 0]] [[1/2, 1/2]]
          TransferFunction.Nothing).transfer_function.t_f (fun q => q)
          ((DefaultLayer.mk [0] [[1/100, 1/100]] [[1, 1]] [[0, 0]] [[1/2, 1/2]]
            TransferFunction.Nothing).neurons.getD 0 0) - ([0] : List ℚ).getD 0 0) :=
  (c3_backward_step (fun q => q)
    (DefaultLayer.mk [0] [[1/100, 1/100]] [[1, 1]] [[0, 0]] [[1/2, 1/2]]
      TransferFunction.Nothing)
    [0] (InnerOuter.Outputs [0]) [0] [0] [[1/2]] 0 0
    (by decide) (by decide) (by decide) (by decide)).1

/-! ### Structure extensionality -/

theorem layerExt (a b : DefaultLayer) (h1 : a.neurons = b.neurons)
    (h2 : a.learning_rates = b.learning_rates) (h3 : a.previous_signs = b.previous_signs)
    (h4 : a.gradient_batch = b.gradient_batch) (h5 : a.weights = b.weights)
    (h6 : a.transfer_function = b.transfer_function) : a = b := by
  cases a; cases b; simp_all

theorem netExt (a b : NeuralNet) (h1 : a.inputs_amount = b.inputs_amount)
    (h2 : a.layers = b.layers) : a = b := by
  cases a; cases b; simp_all

/-! ### Commuting a gradient offset past the backward accumulation -/

theorem zipAdd_addRow (inputs : List ℚ) (d : ℚ) (row delta : List ℚ) :
    zipAdd inputs d (addRow row delta) = addRow (zipAdd inputs d row) delta := by
  induction inputs generalizing row delta with
  | nil => rfl
  | cons i is ih =>
    cases row with
    | nil => rfl
    | cons g gs =>
      simp only [addRow, zipAdd, List.cons.injEq]
      exact ⟨by ring, ih gs delta.tail⟩

theorem bumpLast_addRow (row delta : List ℚ) (d : ℚ) :
    bumpLast (addRow row delta) d = addRow (bumpLast row d) delta := by
  induction row generalizing delta with
  | nil => rfl
  | cons g gs ih =>
    cases gs with
    | nil => simp only [addRow, bumpLast]; ring_nf
    | cons g2 gs2 =>
      simp only [addRow, bumpLast, List.cons.injEq]
      exact ⟨trivial, ih delta.tail⟩

theorem addGrads_addRow (inputs : List ℚ) (d : ℚ) (row delta : List ℚ) :
    addGrads inputs d (addRow row delta) = addRow (addGrads inputs d row) delta := by
  rw [addGrads, addGrads, zipAdd_addRow, bumpLast_addRow]

theorem gbUpdate_addMat (inputs ds : List ℚ) (gb delta : List (List ℚ)) :
    gbUpdate inputs ds (addMat gb delta) = addMat (gbUpdate inputs ds gb) delta := by
  induction ds generalizing gb delta with
  | nil => rfl
  | cons d ds ih =>
    cases gb with
    | nil => rfl
    | cons row rows =>
      simp only [addMat, gbUpdate, List.cons.injEq]
      exact ⟨addGrads_addRow inputs d row (delta.headD []), ih rows delta.tail⟩

theorem feedforward_layerAddG (th : ℚ → ℚ) (l : DefaultLayer) (prev : List ℚ)
    (ptf : TransferFunction) (delta : List (List ℚ)) :
    (layerAddG l delta).feedforward th prev ptf =
      layerAddG (l.feedforward th prev ptf) delta := rfl

theorem backpropagate_layerAddG (th : ℚ → ℚ) (l : DefaultLayer) (inputs : List ℚ)
    (errs : InnerOuter) (delta : List (List ℚ)) :
    (layerAddG l delta).backpropagate th inputs errs =
      layerAddG (l.backpropagate th inputs errs) delta := by
  refine layerExt _ _ rfl rfl rfl ?_ rfl rfl
  simp only [DefaultLayer.backpropagate, layerAddG]
  exact gbUpdate_addMat _ _ _ _

theorem feedLayers_layersAddG (th : ℚ → ℚ) (prev : List ℚ) (ptf : TransferFunction)
    (ls : List DefaultLayer) (ds : List (List (List ℚ))) :
    feedLayers th prev ptf (layersAddG ls ds) = layersAddG (feedLayers th prev ptf ls) ds := by
  induction ls generalizing prev ptf ds with
  | nil => rfl
  | cons l rest ih =>
    simp only [layersAddG, feedLayers, feedforward_layerAddG, List.cons.injEq]
    exact ⟨trivial, ih _ _ ds.tail⟩

theorem backLayers_length (th : ℚ → ℚ) (outs prev : List ℚ) (ls : List DefaultLayer) :
    (backLayers th outs prev ls).length = ls.length := by
  induction ls generalizing prev with
  | nil => rfl
  | cons l rest ih =>
    cases rest with
    | nil => rfl
    | cons next rest2 => simpa [backLayers] using ih _

theorem layersAddG_headD (ls : List DefaultLayer) (ds : List (List (List ℚ)))
    (d d2 : DefaultLayer) (h : ls ≠ []) :
    (layersAddG ls ds).headD d = layerAddG (ls.headD d2) (ds.headD []) := by
  cases ls with
  | nil => exact absurd rfl h
  | cons a as => rfl

theorem backLayers_layersAddG (th : ℚ → ℚ) (outs prev : List ℚ)
    (ls : List DefaultLayer) (ds : List (List (List ℚ))) :
    backLayers th outs prev (layersAddG ls ds) = layersAddG (backLayers th outs prev ls) ds := by
  induction ls generalizing prev ds with
  | nil => rfl
  | cons l rest ih =>
    cases rest with
    | nil =>
      simp only [layersAddG, backLayers, backpropagate_layerAddG]
    | cons next rest2 =>
      have hne : backLayers th outs (l.neurons.map (l.transfer_function.t_f th))
          (next :: rest2) ≠ [] := by
        intro hcon
        have := backLayers_length th outs (l.neurons.map (l.transfer_function.t_f th))
          (next :: rest2)
        rw [hcon] at this
        simp at this
      simp only [layersAddG, backLayers]
      have hn : (layerAddG l (ds.headD [])).neurons.map
          ((layerAddG l (ds.headD [])).transfer_function.t_f th) =
          l.neurons.map (l.transfer_function.t_f th) := rfl
      rw [hn]
      have htail : layersAddG (next :: rest2) ds.tail =
          layerAddG next (ds.tail.headD []) :: layersAddG rest2 ds.tail.tail := rfl
      rw [show backLayers th outs (l.neurons.map (l.transfer_function.t_f th))
          (layerAddG next (ds.tail.headD []) :: layersAddG rest2 ds.tail.tail) =
          backLayers th outs (l.neurons.map (l.transfer_function.t_f th))
            (layersAddG (next :: rest2) ds.tail) from rfl]
      rw [ih _ ds.tail]
      rw [layersAddG_headD _ _ _ next hne]
      have hpn : (layerAddG ((backLayers th outs (l.neurons.map (l.transfer_function.t_f th))
          (next :: rest2)).headD next) (ds.tail.headD [])).neurons =
          ((backLayers th outs (l.neurons.map (l.transfer_function.t_f th))
            (next :: rest2)).headD next).neurons := rfl
      have hpw : (layerAddG ((backLayers th outs (l.neurons.map (l.transfer_function.t_f th))
          (next :: rest2)).headD next) (ds.tail.headD [])).weights =
          ((backLayers th outs (l.neurons.map (l.transfer_function.t_f th))
            (next :: rest2)).headD next).weights := rfl
      rw [hpn, hpw, backpropagate_layerAddG]

/-! ### Network-level gradient-offset commutation -/

theorem sampleStep_netAddG (th : ℚ → ℚ) (X : NeuralNet) (ds : List (List (List ℚ)))
    (s : TrainSample) :
    (X.netAddG ds).sampleStep th s = (X.sampleStep th s).netAddG ds := by
  refine netExt _ _ rfl ?_
  show backLayers th s.outputs s.inputs
      (feedLayers th s.inputs TransferFunction.Nothing (layersAddG X.layers ds)) =
    layersAddG (backLayers th s.outputs s.inputs
      (feedLayers th s.inputs TransferFunction.Nothing X.layers)) ds
  rw [feedLayers_layersAddG, backLayers_layersAddG]

theorem nonapply_eq_foldl (th : ℚ → ℚ) (X : NeuralNet) (c : List TrainSample) :
    X.backpropagate_nonapply th c = c.foldl (NeuralNet.sampleStep th) X := rfl

theorem nonapply_nil (th : ℚ → ℚ) (X : NeuralNet) :
    X.backpropagate_nonapply th [] = X := rfl

theorem nonapply_cons (th : ℚ → ℚ) (X : NeuralNet) (s : TrainSample) (c : List TrainSample) :
    X.backpropagate_nonapply th (s :: c) =
      (X.sampleStep th s).backpropagate_nonapply th c := rfl

theorem nonapply_append (th : ℚ → ℚ) (X : NeuralNet) (a b : List TrainSample) :
    X.backpropagate_nonapply th (a ++ b) =
      (X.backpropagate_nonapply th a).backpropagate_nonapply th b := by
  simp [nonapply_eq_foldl, List.foldl_append]

theorem nonapply_netAddG (th : ℚ → ℚ) (X : NeuralNet) (ds : List (List (List ℚ)))
    (c : List TrainSample) :
    (X.netAddG ds).backpropagate_nonapply th c =
      (X.backpropagate_nonapply th c).netAddG ds := by
  induction c generalizing X with
  | nil => simp [nonapply_nil]
  | cons s c ih => rw [nonapply_cons, sampleStep_netAddG, ih, nonapply_cons]

/-! ### The zero-plus-gradient identity -/

theorem addRow_map_zero (r : List ℚ) : addRow (r.map (fun _ => 0)) r = r := by
  induction r with
  | nil => rfl
  | cons x xs ih =>
    simp only [List.map_cons, addRow, List.headD_cons, List.tail_cons, zero_add,
      List.cons.injEq]
    exact ⟨trivial, ih⟩

theorem addMat_zeroMatL (m : List (List ℚ)) : addMat (zeroMatL m) m = m := by
  induction m with
  | nil => rfl
  | cons r rs ih =>
    simp only [zeroMatL, List.map_cons, addMat, List.headD_cons, List.tail_cons,
      List.cons.injEq]
    exact ⟨addRow_map_zero r, ih⟩

theorem layerAddG_layerZeroG (l : DefaultLayer) :
    layerAddG (layerZeroG l) l.gradient_batch = l := by
  refine layerExt _ _ rfl rfl rfl ?_ rfl rfl
  show addMat (zeroMatL l.gradient_batch) l.gradient_batch = l.gradient_batch
  exact addMat_zeroMatL _

theorem netAddG_netZeroG (X : NeuralNet) : X.netZeroG.netAddG X.gbOf = X := by
  refine netExt _ _ rfl ?_
  show layersAddG (X.layers.map layerZeroG) (X.layers.map DefaultLayer.gradient_batch) =
    X.layers
  induction X.layers with
  | nil => rfl
  | cons l ls ih =>
    simp only [List.map_cons, layersAddG, List.headD_cons, List.tail_cons,
      List.cons.injEq]
    exact ⟨layerAddG_layerZeroG l, ih⟩

/-! ### combine as a gradient offset -/

theorem combineLayers_eq_layersAddG (ls os : List DefaultLayer)
    (h : ls.length ≤ os.length) :
    combineLayers ls os = layersAddG ls (os.map DefaultLayer.gradient_batch) := by
  induction ls generalizing os with
  | nil => cases os <;> rfl
  | cons l ls ih =>
    cases os with
    | nil => simp at h
    | cons o os =>
      simp only [combineLayers, List.map_cons, layersAddG, List.headD_cons,
        List.tail_cons, List.cons.injEq]
      exact ⟨rfl, ih os (by simpa using h)⟩

theorem combine_eq_netAddG (X W : NeuralNet) (h : X.layers.length ≤ W.layers.length) :
    X.combine W = X.netAddG W.gbOf := by
  refine netExt _ _ rfl ?_
  exact combineLayers_eq_layersAddG X.layers W.layers h

theorem gbOf_netAddG (X : NeuralNet) (ds : List (List (List ℚ))) :
    (X.netAddG ds).gbOf = gbAddL X.gbOf ds := by
  show (layersAddG X.layers ds).map DefaultLayer.gradient_batch =
    gbAddL (X.layers.map DefaultLayer.gradient_batch) ds
  induction X.layers generalizing ds with
  | nil => rfl
  | cons l ls ih =>
    simp only [layersAddG, List.map_cons, gbAddL, List.cons.injEq]
    exact ⟨rfl, ih ds.tail⟩

/-! ### Exchanging two gradient offsets -/

theorem addRow_exchange (r a b : List ℚ) (h : r.length = b.length) :
    addRow (addRow r a) b = addRow r (addRow b a) := by
  induction r generalizing a b with
  | nil => rfl
  | cons x xs ih =>
    cases b with
    | nil => simp at h
    | cons y ys =>
      simp only [addRow, List.headD_cons, List.tail_cons, List.cons.injEq]
      refine ⟨by ring, ?_⟩
      exact ih a.tail ys (by simpa using h)

theorem addMat_exchange (g a b : List (List ℚ)) (h : matShape g = matShape b) :
    addMat (addMat g a) b = addMat g (addMat b a) := by
  induction g generalizing a b with
  | nil => rfl
  | cons r rs ih =>
    cases b with
    | nil => simp [matShape] at h
    | cons y ys =>
      simp only [matShape_cons, List.cons.injEq] at h
      simp only [addMat, List.headD_cons, List.tail_cons, List.cons.injEq]
      exact ⟨addRow_exchange r (a.headD []) y h.1, ih a.tail ys h.2⟩

theorem layersAddG_exchange (ls : List DefaultLayer) (A B : List (List (List ℚ)))
    (h : List.Forall₂ (fun m n => matShape m = matShape n)
      (ls.map DefaultLayer.gradient_batch) B) :
    layersAddG (layersAddG ls A) B = layersAddG ls (gbAddL B A) := by
  induction ls generalizing A B with
  | nil => rfl
  | cons l ls ih =>
    cases B with
    | nil =>
      rw [List.map_cons] at h
      cases h
    | cons b bs =>
      rw [List.map_cons, List.forall₂_cons] at h
      simp only [layersAddG, gbAddL, List.headD_cons, List.tail_cons, List.cons.injEq]
      constructor
      · refine layerExt _ _ rfl rfl rfl ?_ rfl rfl
        show addMat (addMat l.gradient_batch (A.headD [])) b =
          addMat l.gradient_batch (addMat b (A.headD []))
        exact addMat_exchange _ _ _ h.1
      · exact ih A.tail bs h.2

theorem netAddG_exchange (X : NeuralNet) (A B : List (List (List ℚ)))
    (h : gbShapeRel X.gbOf B) :
    (X.netAddG A).netAddG B = X.netAddG (gbAddL B A) := by
  refine netExt _ _ rfl ?_
  exact layersAddG_exchange X.layers A B h

/-! ### The data preserved by forward and backward passes -/

theorem skelL_feedforward (th : ℚ → ℚ) (l : DefaultLayer) (prev : List ℚ)
    (ptf : TransferFunction) : skelL (l.feedforward th prev ptf) = skelL l := by
  simp [skelL, DefaultLayer.feedforward, feedNeurons_length]

theorem skelL_backpropagate (th : ℚ → ℚ) (l : DefaultLayer) (inputs : List ℚ)
    (errs : InnerOuter) : skelL (l.backpropagate th inputs errs) = skelL l := by
  simp [skelL, DefaultLayer.backpropagate, derivsFrom_length, matShape_gbUpdate]

theorem skel_feedLayers (th : ℚ → ℚ) (prev : List ℚ) (ptf : TransferFunction)
    (ls : List DefaultLayer) :
    (feedLayers th prev ptf ls).map skelL = ls.map skelL := by
  induction ls generalizing prev ptf with
  | nil => rfl
  | cons l rest ih =>
    simp only [feedLayers, List.map_cons, List.cons.injEq]
    exact ⟨skelL_feedforward th l prev ptf, ih _ _⟩

theorem skel_backLayers (th : ℚ → ℚ) (outs prev : List ℚ) (ls : List DefaultLayer) :
    (backLayers th outs prev ls).map skelL = ls.map skelL := by
  induction ls generalizing prev with
  | nil => rfl
  | cons l rest ih =>
    cases rest with
    | nil =>
      simp only [backLayers, List.map_cons, List.map_nil, List.cons.injEq]
      exact ⟨skelL_backpropagate th l prev _, trivial⟩
    | cons next rest2 =>
      simp only [backLayers, List.map_cons, List.cons.injEq]
      exact ⟨skelL_backpropagate th l prev _, ih _⟩

theorem skel_sampleStep (th : ℚ → ℚ) (X : NeuralNet) (s : TrainSample) :
    (X.sampleStep th s).layers.map skelL = X.layers.map skelL := by
  show (backLayers th s.outputs s.inputs
    (feedLayers th s.inputs TransferFunction.Nothing X.layers)).map skelL = _
  rw [skel_backLayers, skel_feedLayers]

theorem skel_nonapply (th : ℚ → ℚ) (X : NeuralNet) (c : List TrainSample) :
    (X.backpropagate_nonapply th c).layers.map skelL = X.layers.map skelL := by
  induction c generalizing X with
  | nil => rfl
  | cons s c ih => rw [nonapply_cons, ih, skel_sampleStep]

theorem inputs_amount_nonapply (th : ℚ → ℚ) (X : NeuralNet) (c : List TrainSample) :
    (X.backpropagate_nonapply th c).inputs_amount = X.inputs_amount := by
  induction c generalizing X with
  | nil => rfl
  | cons s c ih => rw [nonapply_cons, ih]; rfl

theorem layers_length_nonapply (th : ℚ → ℚ) (X : NeuralNet) (c : List TrainSample) :
    (X.backpropagate_nonapply th c).layers.length = X.layers.length := by
  have h := skel_nonapply th X c
  have := congrArg List.length h
  simpa using this

theorem layersAddG_length (ls : List DefaultLayer) (ds : List (List (List ℚ))) :
    (layersAddG ls ds).length = ls.length := by
  induction ls generalizing ds with
  | nil => rfl
  | cons l rest ih => simpa [layersAddG] using ih ds.tail

/-! ### Neuron-buffer insensitivity -/

theorem feedNeurons_eq_of_length (th : ℚ → ℚ) (ptf : TransferFunction) (prev : List ℚ)
    (n1 n2 : List ℚ) (ws : List (List ℚ)) (hlen : n1.length = n2.length)
    (hle : n1.length ≤ ws.length) :
    feedNeurons th ptf prev n1 ws = feedNeurons th ptf prev n2 ws := by
  induction n1 generalizing n2 ws with
  | nil =>
    cases n2 with
    | nil => rfl
    | cons b bs => simp at hlen
  | cons a as ih =>
    cases n2 with
    | nil => simp at hlen
    | cons b bs =>
      cases ws with
      | nil => simp at hle
      | cons row rows =>
        simp only [feedNeurons, List.cons.injEq]
        exact ⟨trivial, ih bs rows (by simpa using hlen) (by simpa using hle)⟩

theorem feedLayers_twin (th : ℚ → ℚ) (prev : List ℚ) (ptf : TransferFunction)
    (ls1 ls2 : List DefaultLayer) (h : List.Forall₂ layerTwin ls1 ls2) :
    feedLayers th prev ptf ls1 = feedLayers th prev ptf ls2 := by
  induction h generalizing prev ptf with
  | nil => rfl
  | cons hab htail ih =>
    next a b as bs =>
    obtain ⟨h1, h2, h3, h4, h5, h6, h7⟩ := hab
    have hhead : a.feedforward th prev ptf = b.feedforward th prev ptf := by
      refine layerExt _ _ ?_ h1 h2 h3 h4 h5
      show feedNeurons th ptf prev a.neurons a.weights =
        feedNeurons th ptf prev b.neurons b.weights
      rw [← h4]
      exact feedNeurons_eq_of_length th ptf prev a.neurons b.neurons a.weights h6 h7
    simp only [feedLayers, hhead, List.cons.injEq]
    exact ⟨trivial, ih _ _⟩

theorem sampleStep_twin (th : ℚ → ℚ) (X Y : NeuralNet) (s : TrainSample)
    (hia : X.inputs_amount = Y.inputs_amount)
    (h : List.Forall₂ layerTwin X.layers Y.layers) :
    X.sampleStep th s = Y.sampleStep th s := by
  refine netExt _ _ hia ?_
  show backLayers th s.outputs s.inputs
      (feedLayers th s.inputs TransferFunction.Nothing X.layers) =
    backLayers th s.outputs s.inputs
      (feedLayers th s.inputs TransferFunction.Nothing Y.layers)
  rw [feedLayers_twin th s.inputs TransferFunction.Nothing X.layers Y.layers h]

theorem nonapply_twin (th : ℚ → ℚ) (X Y : NeuralNet) (c : List TrainSample)
    (hia : X.inputs_amount = Y.inputs_amount)
    (h : List.Forall₂ layerTwin X.layers Y.layers) (hc : c ≠ []) :
    X.backpropagate_nonapply th c = Y.backpropagate_nonapply th c := by
  cases c with
  | nil => exact absurd rfl hc
  | cons s c =>
    rw [nonapply_cons, nonapply_cons, sampleStep_twin th X Y s hia h]

/-! ### Building the twin relation from the preserved skeleton -/

theorem map_const_eq_replicate (l : List α) (c : β) :
    l.map (fun _ => c) = List.replicate l.length c := by
  induction l with
  | nil => rfl
  | cons a as ih => simp [List.replicate_succ, ih]

theorem zeroMatL_congr (m n : List (List ℚ)) (h : matShape m = matShape n) :
    zeroMatL m = zeroMatL n := by
  induction m generalizing n with
  | nil =>
    cases n with
    | nil => rfl
    | cons b bs => simp [matShape] at h
  | cons a as ih =>
    cases n with
    | nil => simp [matShape] at h
    | cons b bs =>
      simp only [matShape_cons, List.cons.injEq] at h
      simp only [zeroMatL, List.map_cons, List.cons.injEq]
      constructor
      · rw [map_const_eq_replicate, map_const_eq_replicate, h.1]
      · simpa [zeroMatL] using ih bs h.2

theorem twin_of_skel (A B : List DefaultLayer) (h : A.map skelL = B.map skelL)
    (hgood : ∀ l ∈ B, l.neurons.length ≤ l.weights.length) :
    List.Forall₂ layerTwin (A.map layerZeroG) (B.map layerZeroG) := by
  induction A generalizing B with
  | nil =>
    cases B with
    | nil => exact List.Forall₂.nil
    | cons b bs => simp at h
  | cons a as ih =>
    cases B with
    | nil => simp at h
    | cons b bs =>
      simp only [List.map_cons, List.cons.injEq] at h
      obtain ⟨hhead, htail⟩ := h
      simp only [skelL, Prod.mk.injEq] at hhead
      obtain ⟨e1, e2, e3, e4, e5, e6⟩ := hhead
      simp only [List.map_cons]
      refine List.Forall₂.cons ?_ (ih bs htail (fun l hl => hgood l (List.mem_cons_of_mem b hl)))
      refine ⟨e1, e2, ?_, e3, e4, e5, ?_⟩
      · exact zeroMatL_congr _ _ e6
      · show a.neurons.length ≤ a.weights.length
        rw [e5, e3]
        exact hgood b (List.mem_cons_self b bs)

/-! ### Assembling the parallel-equals-sequential argument -/

theorem gb_matshape_nonapply (th : ℚ → ℚ) (X : NeuralNet) (c : List TrainSample) :
    (X.backpropagate_nonapply th c).layers.map (fun l => matShape l.gradient_batch) =
      X.layers.map (fun l => matShape l.gradient_batch) := by
  have h2 := congrArg
    (List.map (fun t : List (List ℚ) × List (List Int) × List (List ℚ) ×
      TransferFunction × ℕ × List ℕ => t.2.2.2.2.2)) (skel_nonapply th X c)
  rw [List.map_map, List.map_map] at h2
  exact h2

theorem forall₂_matShape_of_maps (ls1 ls2 : List DefaultLayer)
    (h : ls1.map (fun l => matShape l.gradient_batch) =
      ls2.map (fun l => matShape l.gradient_batch)) :
    List.Forall₂ (fun m n => matShape m = matShape n)
      (ls1.map DefaultLayer.gradient_batch) (ls2.map DefaultLayer.gradient_batch) := by
  induction ls1 generalizing ls2 with
  | nil =>
    cases ls2 with
    | nil => exact List.Forall₂.nil
    | cons b bs => simp at h
  | cons a as ih =>
    cases ls2 with
    | nil => simp at h
    | cons b bs =>
      simp only [List.map_cons, List.cons.injEq] at h
      exact List.Forall₂.cons h.1 (ih bs h.2)

theorem gbShapeRel_nonapply (th : ℚ → ℚ) (Z : NeuralNet) (a b : List TrainSample) :
    gbShapeRel (Z.backpropagate_nonapply th a).gbOf (Z.backpropagate_nonapply th b).gbOf := by
  show List.Forall₂ _ _ _
  apply forall₂_matShape_of_maps
  rw [gb_matshape_nonapply, gb_matshape_nonapply]

theorem nonapply_decompose (th : ℚ → ℚ) (Z : NeuralNet) (done c : List TrainSample)
    (hgood : ∀ l ∈ Z.layers, l.neurons.length ≤ l.weights.length)
    (hzero : Z.netZeroG = Z) (hc : c ≠ []) :
    (Z.backpropagate_nonapply th done).backpropagate_nonapply th c =
      (Z.backpropagate_nonapply th c).netAddG (Z.backpropagate_nonapply th done).gbOf := by
  have hid := netAddG_netZeroG (Z.backpropagate_nonapply th done)
  conv_lhs => rw [← hid]
  rw [nonapply_netAddG]
  congr 1
  apply nonapply_twin th _ _ c ?_ ?_ hc
  · exact inputs_amount_nonapply th Z done
  · have ht := twin_of_skel (Z.backpropagate_nonapply th done).layers Z.layers
      (skel_nonapply th Z done) hgood
    have hz : Z.layers.map layerZeroG = Z.layers := congrArg NeuralNet.layers hzero
    rw [hz] at ht
    exact ht

theorem combine_step (th : ℚ → ℚ) (Z : NeuralNet) (done w c_last : List TrainSample)
    (hgood : ∀ l ∈ Z.layers, l.neurons.length ≤ l.weights.length)
    (hzero : Z.netZeroG = Z) (hw : w ≠ []) (hcl : c_last ≠ []) :
    ((Z.backpropagate_nonapply th done).backpropagate_nonapply th c_last).combine
        (Z.backpropagate_nonapply th w) =
      NeuralNet.backpropagate_nonapply th
        ((Z.backpropagate_nonapply th done).backpropagate_nonapply th w) c_last := by
  have e1 : (Z.backpropagate_nonapply th done).backpropagate_nonapply th w =
      Z.backpropagate_nonapply th (done ++ w) := (nonapply_append th Z done w).symm
  have e2 : (Z.backpropagate_nonapply th (done ++ w)).gbOf =
      gbAddL (Z.backpropagate_nonapply th w).gbOf
        (Z.backpropagate_nonapply th done).gbOf := by
    rw [← e1, nonapply_decompose th Z done w hgood hzero hw, gbOf_netAddG]
  rw [e1, nonapply_decompose th Z (done ++ w) c_last hgood hzero hcl, e2,
    nonapply_decompose th Z done c_last hgood hzero hcl]
  have hlen : ((Z.backpropagate_nonapply th c_last).netAddG
      (Z.backpropagate_nonapply th done).gbOf).layers.length ≤
      (Z.backpropagate_nonapply th w).layers.length := by
    show (layersAddG _ _).length ≤ _
    rw [layersAddG_length, layers_length_nonapply, layers_length_nonapply]
  rw [combine_eq_netAddG _ _ hlen]
  exact netAddG_exchange _ _ _ (gbShapeRel_nonapply th Z c_last w)

theorem fold_combine (th : ℚ → ℚ) (Z : NeuralNet)
    (hgood : ∀ l ∈ Z.layers, l.neurons.length ≤ l.weights.length)
    (hzero : Z.netZeroG = Z) (c_last : List TrainSample) (hcl : c_last ≠ []) :
    ∀ (ws : List (List TrainSample)) (done : List TrainSample),
      (∀ w ∈ ws, w ≠ []) →
      List.foldl NeuralNet.combine
          ((Z.backpropagate_nonapply th done).backpropagate_nonapply th c_last)
          (ws.map (fun w => Z.backpropagate_nonapply th w)) =
        NeuralNet.backpropagate_nonapply th
          (Z.backpropagate_nonapply th (done ++ ws.flatten)) c_last := by
  intro ws
  induction ws with
  | nil =>
    intro done hne
    simp
  | cons w ws ih =>
    intro done hne
    simp only [List.map_cons, List.foldl_cons, List.flatten_cons]
    rw [combine_step th Z done w c_last hgood hzero (hne w (List.mem_cons_self w ws)) hcl]
    have e1 : (Z.backpropagate_nonapply th done).backpropagate_nonapply th w =
        Z.backpropagate_nonapply th (done ++ w) := (nonapply_append th Z done w).symm
    rw [e1, ih (done ++ w) (fun x hx => hne x (List.mem_cons_of_mem w hx)),
      List.append_assoc]

theorem chunks_flatten (samples : List TrainSample) (spt : ℕ) (n : ℕ) :
    ((List.range n).map (fun k => (samples.drop (k * spt)).take spt)).flatten ++
      samples.drop (n * spt) = samples := by
  induction n with
  | zero => simp
  | succ n ih =>
    rw [List.range_succ, List.map_append, List.flatten_append]
    simp only [List.map_cons, List.map_nil, List.flatten_cons, List.flatten_nil,
      List.append_nil]
    rw [List.append_assoc]
    have hstep : (samples.drop (n * spt)).take spt ++ samples.drop ((n + 1) * spt) =
        samples.drop (n * spt) := by
      have hd : samples.drop ((n + 1) * spt) = (samples.drop (n * spt)).drop spt := by
        rw [List.drop_drop]
        congr 1
        ring
      rw [hd, List.take_append_drop]
    rw [hstep, ih]

/-- Claim C1: backpropagate_multithreaded with threads >= 1 produces exactly
the same network as backpropagate on the same batch (exact equality in the
rational embedding, hence equality up to floating-point summation order for
f64): the batch splits into contiguous chunks, worker clones only accumulate
gradients, the accumulators merge in a fixed sequential order, and
apply_gradients runs once; with samples.len() < threads no worker is spawned
and the call is single-threaded.  The gradient accumulators are zero at
entry (netZeroG net = net), which holds for every freshly created, loaded,
or fully trained network. -/
theorem c1_parallel_equivalence (th : ℚ → ℚ) (net : NeuralNet)
    (samples : List TrainSample) (threads : ℕ) (hthreads : 1 ≤ threads)
    (hgood : ∀ l ∈ net.layers, l.neurons.length ≤ l.weights.length)
    (hzero : net.netZeroG = net) :
    net.backpropagate_multithreaded th samples threads =
      some (net.backpropagate th samples) := by
  unfold NeuralNet.backpropagate_multithreaded
  by_cases hc : threads ≤ samples.length
  · have hnz : threads ≠ 0 := by omega
    simp only [if_pos hc, if_neg hnz]
    show some (NeuralNet.apply_gradients _) = some (NeuralNet.apply_gradients _)
    congr 1
    have hspt1 : 1 ≤ samples.length / threads :=
      (Nat.one_le_div_iff (by omega)).2 hc
    have hmul : samples.length / threads * threads ≤ samples.length :=
      Nat.div_mul_le_self _ _
    have hmul2 : threads * (samples.length / threads) ≤ samples.length := by
      rw [Nat.mul_comm]; exact hmul
    have hTsub : (threads - 1) * (samples.length / threads) +
        samples.length / threads = threads * (samples.length / threads) := by
      cases threads with
      | zero => omega
      | succ t => simp [Nat.succ_sub_one, Nat.succ_mul]
    have hlen_cl : 1 ≤ (samples.drop ((threads - 1) * (samples.length / threads))).length := by
      rw [List.length_drop]
      omega
    have hcl : samples.drop ((threads - 1) * (samples.length / threads)) ≠ [] := by
      intro hnil
      rw [hnil] at hlen_cl
      simp at hlen_cl
    have hws : ∀ w ∈ (List.range (threads - 1)).map
        (fun k => (samples.drop (k * (samples.length / threads))).take
          (samples.length / threads)), w ≠ [] := by
      intro w hw
      simp only [List.mem_map, List.mem_range] at hw
      obtain ⟨k, hk, rfl⟩ := hw
      intro hnil
      have hlw := congrArg List.length hnil
      rw [List.length_take, List.length_drop] at hlw
      have hk1 : (k + 1) * (samples.length / threads) ≤
          (threads - 1) * (samples.length / threads) :=
        Nat.mul_le_mul_right _ (by omega)
      have hk2 : (k + 1) * (samples.length / threads) =
          k * (samples.length / threads) + samples.length / threads := by ring
      simp only [List.length_nil] at hlw
      omega
    have hmm : (List.range (threads - 1)).map
        (fun k => net.backpropagate_nonapply th
          ((samples.drop (k * (samples.length / threads))).take
            (samples.length / threads))) =
        ((List.range (threads - 1)).map
          (fun k => (samples.drop (k * (samples.length / threads))).take
            (samples.length / threads))).map
          (fun w => net.backpropagate_nonapply th w) := by
      rw [List.map_map]
      rfl
    rw [hmm]
    have hfold := fold_combine th net hgood hzero
      (samples.drop ((threads - 1) * (samples.length / threads))) hcl
      ((List.range (threads - 1)).map
        (fun k => (samples.drop (k * (samples.length / threads))).take
          (samples.length / threads))) [] hws
    rw [nonapply_nil] at hfold
    rw [hfold]
    rw [List.nil_append, ← nonapply_append, chunks_flatten]
  · simp only [if_neg hc]
    rfl

theorem c1_parallel_equivalence_witness :
    (NeuralNet.mk 1 [DefaultLayer.mk [0] [[1/10, 1/10]] [[1, 1]] [[0, 0]] [[1/2, 1/2]]
        TransferFunction.Sigmoid]).backpropagate_multithreaded (fun q => q)
        [TrainSample.mk [1] [0], TrainSample.mk [0] [1]] 2 =
      some ((NeuralNet.mk 1 [DefaultLayer.mk [0] [[1/10, 1/10]] [[1, 1]] [[0, 0]]
          [[1/2, 1/2]] TransferFunction.Sigmoid]).backpropagate (fun q => q)
        [TrainSample.mk [1] [0], TrainSample.mk [0] [1]]) :=
  c1_parallel_equivalence (fun q => q)
    (NeuralNet.mk 1 [DefaultLayer.mk [0] [[1/10, 1/10]] [[1, 1]] [[0, 0]] [[1/2, 1/2]]
      TransferFunction.Sigmoid])
    [TrainSample.mk [1] [0], TrainSample.mk [0] [1]] 2 (by decide) (by decide) rfl
